import Mathlib

/-!
Verification of the BLang runtime core (Lesson 8, `src/unnamed/part_000`,
with the `RuntimeValue` / `StackFrame` data types from `src/unnamed/part_005`).

The development shallowly embeds the C++ runtime: the mark-and-sweep
`MemoryManager`, the runtime class model (`ClassInstance` / `MethodInstance`
with the vtable built at construction), the `VirtualMachine` method-call and
exception-handling code.  C++ pointers become `Nat` handles into explicit
association-list stores, `std::shared_ptr` fields become handles, mutation
becomes state passing, and C++ exceptions escaping to the host become an
explicit `hostError` result.  Unbounded C++ recursion (the marking DFS, the
unwinding loop) is embedded with an explicit fuel argument that is proved or
chosen sufficient, so every definition is executable.
-/

namespace BLang

/-- Tagged runtime value (`RuntimeValue` in part_005).  The FLOAT payload is
not modelled (no claim touches float arithmetic); ARRAY values are likewise
omitted.  `objectV` is the non-owning handle into the heap's object table. -/
inductive RuntimeValue where
  | intV (i : Int)
  | floatV
  | boolV (b : Bool)
  | strV (s : String)
  | objectV (id : Nat)
  | nullV
deriving DecidableEq

/-- matches `RuntimeValue::isObject`. -/
def RuntimeValue.isObject : RuntimeValue → Bool
  | .objectV _ => true
  | _ => false

/-- matches `RuntimeValue::getObject`, as the handle of the referenced object
(`none` on a value of non-object kind). -/
def RuntimeValue.asObject : RuntimeValue → Option Nat
  | .objectV id => some id
  | _ => none

/-- Heap-resident object record (`ObjectInstance` in part_000 §2.2): class
handle, field map, and the mark bit used by the collector. -/
structure ObjectInstance where
  classId : Nat
  fields : List (String × RuntimeValue)
  marked : Bool
deriving DecidableEq

/-- matches `ObjectInstance::getReferences`: the handles held by the object's
fields of object kind. -/
def getReferences (o : ObjectInstance) : List Nat :=
  o.fields.filterMap (fun p => p.2.asObject)

/-- Map lookup `m.find(k)` on an association list (the `unordered_map` /
`unordered_set` find used throughout the source). -/
def assocFind {κ β : Type} [DecidableEq κ] (k : κ) : List (κ × β) → Option β
  | [] => none
  | (k', v) :: rest => if k' = k then some v else assocFind k rest

/-- Map assignment `m[k] = v` on an association list: replace the first
binding of `k`, or append a new one (the `unordered_map` subscript-assign
used throughout the source). -/
def setAssoc {κ β : Type} [DecidableEq κ] : List (κ × β) → κ → β → List (κ × β)
  | [], k, v => [(k, v)]
  | (k', v') :: rest, k, v =>
    if k' = k then (k', v) :: rest else (k', v') :: setAssoc rest k v

/-- The live-object table: object handle to object record.  In the C++ this
is `std::unordered_set<ObjectInstance*>` plus the pointed-to records; keys
(addresses) are distinct, which theorems state as `Nodup` of the keys. -/
abbrev Objs := List (Nat × ObjectInstance)

/-- Keys of the live-object table. -/
def tableIds (objs : Objs) : List Nat := objs.map Prod.fst

/-- Mark bit of the object with handle `id` (`false` when absent). -/
def isMarkedIn (objs : Objs) (id : Nat) : Bool :=
  match assocFind id objs with
  | some o => o.marked
  | none => false

/-- Whether handle `id` is in the table. -/
def isPresent (objs : Objs) (id : Nat) : Bool :=
  (assocFind id objs).isSome

/-- Object references held by the object at `id` (empty when absent). -/
def refsOf (objs : Objs) (id : Nat) : List Nat :=
  match assocFind id objs with
  | some o => getReferences o
  | none => []

/-- Set the mark bit of the object with handle `id` (`obj->mark()` /
`obj->unmark()` applied through the table). -/
def setMark (objs : Objs) (id : Nat) (b : Bool) : Objs :=
  objs.map (fun p => if p.1 = id then (p.1, { p.2 with marked := b }) else p)

/-- First phase of `MemoryManager::markReachableObjects`: clear the mark bit
on every object in the table. -/
def unmarkAll (objs : Objs) : Objs :=
  objs.map (fun p => (p.1, { p.2 with marked := false }))

/-- `MemoryManager::markObject`: if the object is absent (null pointer) or
already marked, return; otherwise mark it and recurse into its references.
The C++ recursion carries no fuel; the `fuel` argument embeds it as a total
function, and `markObject_closed` below shows any `fuel > ` (number of
unmarked objects) computes the C++ fixpoint. -/
def markObjectF : Nat → Objs → Nat → Objs
  | 0, objs, _ => objs
  | fuel + 1, objs, id =>
    match assocFind id objs with
    | none => objs
    | some o =>
      if o.marked then objs
      else (getReferences o).foldl (markObjectF fuel) (setMark objs id true)

/-- Heap / collector state (`MemoryManager` in part_000 §2.1).
`rootReferences` models `std::vector<std::shared_ptr<ObjectInstance>*>`: the
current contents of each registered root slot (a slot may hold no object).
Frame locals are deliberately NOT part of this structure, mirroring the
source, where only `addRootReference` ever extends the root list. -/
structure MemoryManager where
  allocatedObjects : Objs
  rootReferences : List (Option Nat)
  totalAllocated : Nat
  totalCollected : Nat
  collectionCount : Nat
deriving DecidableEq

/-- Fuel passed to the embedded marking DFS: strictly more than the number
of table entries, hence strictly more than the number of unmarked objects. -/
def markFuel (objs : Objs) : Nat := objs.length + 1

/-- `MemoryManager::markReachableObjects`: unmark everything, then run the
marking DFS from every root slot that holds an object. -/
def markReachableObjects (mm : MemoryManager) : MemoryManager :=
  let objs0 := unmarkAll mm.allocatedObjects
  let objs1 := mm.rootReferences.foldl
    (fun objs root =>
      match root with
      | some id => markObjectF (markFuel objs0) objs id
      | none => objs)
    objs0
  { mm with allocatedObjects := objs1 }

/-- sizeof(ObjectInstance) in the C++ statistics; the claims are insensitive
to the exact host constant, which is modelled as 1. -/
def objectInstanceSize : Nat := 1

/-- `MemoryManager::sweepUnmarkedObjects`: remove every unmarked object from
the table (marked objects keep their set mark bit; it is cleared only at the
start of the next cycle), and update the statistics.  The C++ iterates and
erases; over an unordered set this equals the partition below.  Also returns
the `freedCount` / `freedSize` locals the C++ computes during the sweep. -/
def sweepUnmarkedObjects (mm : MemoryManager) : MemoryManager × Nat × Nat :=
  let freed := mm.allocatedObjects.filter (fun p => !p.2.marked)
  let freedCount := freed.length
  let freedSize := freedCount * objectInstanceSize
  ({ mm with
      allocatedObjects := mm.allocatedObjects.filter (fun p => p.2.marked),
      totalCollected := mm.totalCollected + freedSize,
      collectionCount := mm.collectionCount + 1,
      totalAllocated := mm.totalAllocated - freedSize },
   freedCount, freedSize)

/-- `MemoryManager::collectGarbage`: mark then sweep.  The C++ returns
`void`; the sweep counters are exposed for specification. -/
def collectGarbage (mm : MemoryManager) : MemoryManager × Nat × Nat :=
  sweepUnmarkedObjects (markReachableObjects mm)

/-- `MemoryManager::shouldCollectGarbage`: more than 1000 objects or more
than 1 MB allocated. -/
def shouldCollectGarbage (mm : MemoryManager) : Bool :=
  mm.allocatedObjects.length > 1000 || mm.totalAllocated > 1024 * 1024

/-- `MemoryManager::allocateObject<ObjectInstance>(classType)`: create the
record (fields empty, mark bit clear), insert it into the table, bump the
allocation statistic, then collect if the pressure threshold is exceeded.
`newId` stands for the fresh address `make_shared` produced; theorems carry
the freshness hypothesis `newId ∉ tableIds`. -/
def allocateObject (mm : MemoryManager) (classId : Nat) (newId : Nat) :
    MemoryManager × Nat :=
  let mm1 := { mm with
    allocatedObjects :=
      mm.allocatedObjects ++ [(newId, ⟨classId, [], false⟩)],
    totalAllocated := mm.totalAllocated + objectInstanceSize }
  if shouldCollectGarbage mm1 then ((collectGarbage mm1).1, newId)
  else (mm1, newId)

/-- `MemoryManager::addRootReference`. -/
def addRootReference (mm : MemoryManager) (root : Option Nat) : MemoryManager :=
  { mm with rootReferences := mm.rootReferences ++ [root] }

/-- Reachability along object-field references: `ReachesFrom objs a y` holds
when a chain of `getReferences` edges leads from `a` to `y` (each node that
an edge leaves must be present in the table, since its fields are read). -/
inductive ReachesFrom (objs : Objs) : Nat → Nat → Prop where
  | refl (a : Nat) : ReachesFrom objs a a
  | step {a b c : Nat} {o : ObjectInstance} (h : ReachesFrom objs a b)
      (hb : assocFind b objs = some o) (hc : c ∈ getReferences o) :
      ReachesFrom objs a c

/-- An object is root reachable when some registered root slot holds a
handle from which it is reachable. -/
def RootReachable (mm : MemoryManager) (y : Nat) : Prop :=
  ∃ id, some id ∈ mm.rootReferences ∧ ReachesFrom mm.allocatedObjects id y

/-! ### Association-list lemmas -/

theorem assocFind_eq_some_of_mem {β : Type} {objs : List (Nat × β)} {k : Nat}
    {v : β} (hnd : (objs.map Prod.fst).Nodup) (hmem : (k, v) ∈ objs) :
    assocFind k objs = some v := by
  induction objs with
  | nil => cases hmem
  | cons p rest ih =>
    obtain ⟨k', v'⟩ := p
    simp only [List.map_cons, List.nodup_cons] at hnd
    rcases List.mem_cons.1 hmem with h | h
    · cases h
      simp [assocFind]
    · have hk : k' ≠ k := by
        intro he
        exact hnd.1 (he ▸ (List.mem_map.2 ⟨(k, v), h, rfl⟩))
      simp [assocFind, hk, ih hnd.2 h]

theorem mem_of_assocFind_eq_some {β : Type} {objs : List (Nat × β)} {k : Nat}
    {v : β} (h : assocFind k objs = some v) : (k, v) ∈ objs := by
  induction objs with
  | nil => simp [assocFind] at h
  | cons p rest ih =>
    obtain ⟨k', v'⟩ := p
    by_cases hk : k' = k
    · subst hk
      simp [assocFind] at h
      subst h
      exact List.mem_cons_self _ _
    · simp [assocFind, hk] at h
      exact List.mem_cons_of_mem _ (ih h)

theorem assocFind_isSome_iff_mem {β : Type} {objs : List (Nat × β)} {k : Nat} :
    (assocFind k objs).isSome = true ↔ k ∈ objs.map Prod.fst := by
  induction objs with
  | nil => simp [assocFind]
  | cons p rest ih =>
    obtain ⟨k', v'⟩ := p
    by_cases hk : k' = k
    · subst hk
      simp [assocFind]
    · simp [assocFind, hk, ih, Ne.symm hk]

/-! ### The mark-extension relation

`MarkExt a b` relates two object tables with the same entries in the same
order, identical keys and fields, where marks may only go from clear to set.
Every operation of the mark phase produces a `MarkExt`-extension of its
input. -/

def entryExt (p q : Nat × ObjectInstance) : Prop :=
  p.1 = q.1 ∧ p.2.classId = q.2.classId ∧ p.2.fields = q.2.fields ∧
    (p.2.marked = true → q.2.marked = true)

def MarkExt (a b : Objs) : Prop := List.Forall₂ entryExt a b

theorem markExt_refl (a : Objs) : MarkExt a a := by
  induction a with
  | nil => exact List.Forall₂.nil
  | cons p rest ih => exact List.Forall₂.cons ⟨rfl, rfl, rfl, fun h => h⟩ ih

theorem markExt_trans {a b c : Objs} (hab : MarkExt a b) (hbc : MarkExt b c) :
    MarkExt a c := by
  induction hab generalizing c with
  | nil => cases hbc; exact List.Forall₂.nil
  | cons hpq _ ih =>
    cases hbc with
    | cons hqr hrest =>
      exact List.Forall₂.cons
        ⟨hpq.1.trans hqr.1, hpq.2.1.trans hqr.2.1, hpq.2.2.1.trans hqr.2.2.1,
          fun h => hqr.2.2.2 (hpq.2.2.2 h)⟩ (ih hrest)

/-- Lookup correspondence along `MarkExt`: the two tables agree on presence,
and corresponding records agree on class and fields with monotone marks. -/
theorem markExt_assocFind {a b : Objs} (h : MarkExt a b) (id : Nat) :
    (assocFind id a = none ∧ assocFind id b = none) ∨
    ∃ o o', assocFind id a = some o ∧ assocFind id b = some o' ∧
      o.classId = o'.classId ∧ o.fields = o'.fields ∧
      (o.marked = true → o'.marked = true) := by
  induction a generalizing b with
  | nil =>
    cases h
    exact Or.inl ⟨rfl, rfl⟩
  | cons p resta ih =>
    cases h with
    | cons hpq htail =>
      rename_i q restb
      obtain ⟨k, o⟩ := p
      obtain ⟨k', o'⟩ := q
      obtain ⟨hk, hc, hf, hm⟩ := hpq
      simp only at hk hc hf hm
      subst hk
      by_cases hkid : k = id
      · subst hkid
        exact Or.inr ⟨o, o', by simp [assocFind], by simp [assocFind], hc, hf, hm⟩
      · simpa [assocFind, hkid] using ih htail

theorem markExt_present {a b : Objs} (h : MarkExt a b) (id : Nat) :
    isPresent a id = isPresent b id := by
  rcases markExt_assocFind h id with ⟨h1, h2⟩ | ⟨o, o', h1, h2, _⟩ <;>
    simp [isPresent, h1, h2]

theorem markExt_refsOf {a b : Objs} (h : MarkExt a b) (id : Nat) :
    refsOf a id = refsOf b id := by
  rcases markExt_assocFind h id with ⟨h1, h2⟩ | ⟨o, o', h1, h2, _, hf, _⟩ <;>
    simp [refsOf, h1, h2, getReferences]
  rw [hf]

theorem markExt_marked {a b : Objs} (h : MarkExt a b) {id : Nat}
    (hm : isMarkedIn a id = true) : isMarkedIn b id = true := by
  rcases markExt_assocFind h id with ⟨h1, _⟩ | ⟨o, o', h1, h2, _, _, hmono⟩
  · simp [isMarkedIn, h1] at hm
  · simp [isMarkedIn, h1] at hm
    simp [isMarkedIn, h2, hmono hm]

theorem markExt_ids {a b : Objs} (h : MarkExt a b) :
    tableIds a = tableIds b := by
  induction h with
  | nil => rfl
  | cons hpq _ ih => simpa [tableIds] using ⟨hpq.1, by simpa [tableIds] using ih⟩

theorem markExt_length {a b : Objs} (h : MarkExt a b) : a.length = b.length :=
  List.Forall₂.length_eq h

theorem markExt_reaches {a b : Objs} (h : MarkExt a b) {x y : Nat}
    (hr : ReachesFrom a x y) : ReachesFrom b x y := by
  induction hr with
  | refl => exact ReachesFrom.refl _
  | step hab hb hc ih =>
    rename_i b' c' o
    rcases markExt_assocFind h b' with ⟨h1, _⟩ | ⟨o₁, o₂, h1, h2, _, hf, _⟩
    · rw [h1] at hb; cases hb
    · rw [h1] at hb
      cases hb
      refine ReachesFrom.step ih h2 ?_
      simpa [getReferences, ← hf] using hc

theorem reachesFrom_trans {objs : Objs} {x y z : Nat}
    (h1 : ReachesFrom objs x y) (h2 : ReachesFrom objs y z) :
    ReachesFrom objs x z := by
  induction h2 with
  | refl => exact h1
  | step _ hb hc ih => exact ReachesFrom.step ih hb hc

theorem reachesFrom_src_present {objs : Objs} {x y : Nat}
    (h : ReachesFrom objs x y) : x = y ∨ isPresent objs x = true := by
  induction h with
  | refl => exact Or.inl rfl
  | step hab hb _ ih =>
    rcases ih with h | h
    · subst h
      exact Or.inr (by simp [isPresent, hb])
    · exact Or.inr h

/-! ### Counting unmarked objects -/

def ucount (objs : Objs) : Nat := objs.countP (fun p => !p.2.marked)

theorem ucount_le_length (objs : Objs) : ucount objs ≤ objs.length :=
  List.countP_le_length _

theorem markExt_ucount {a b : Objs} (h : MarkExt a b) : ucount b ≤ ucount a := by
  induction a generalizing b with
  | nil => cases h; exact le_rfl
  | cons p resta ih =>
    cases h with
    | cons hpq htail =>
      rename_i q restb
      have hrest := ih htail
      simp only [ucount, List.countP_cons] at *
      cases hq : q.2.marked
      · have hp : p.2.marked = false := by
          cases hp : p.2.marked
          · rfl
          · rw [hpq.2.2.2 hp] at hq; cases hq
        simp [hq, hp]
        omega
      · simp [hq]
        cases hp : p.2.marked <;> simp <;> omega

/-! ### Lemmas about `setMark` and the marking DFS -/

theorem setMark_cons (k : Nat) (v : ObjectInstance) (rest : Objs) (id : Nat)
    (b : Bool) :
    setMark ((k, v) :: rest) id b =
      (if k = id then (k, { v with marked := b }) else (k, v)) ::
        setMark rest id b := by
  simp only [setMark, List.map_cons]

theorem assocFind_setMark (objs : Objs) (id y : Nat) (b : Bool) :
    assocFind y (setMark objs id b) =
      if y = id then (assocFind y objs).map (fun o => { o with marked := b })
      else assocFind y objs := by
  induction objs with
  | nil => simp [setMark, assocFind]
  | cons p rest ih =>
    obtain ⟨k, v⟩ := p
    rw [setMark_cons]
    by_cases hkid : k = id <;> by_cases hky : k = y
    · subst hkid; subst hky
      rw [if_pos rfl]
      simp [assocFind]
    · subst hkid
      rw [if_pos rfl]
      simp only [assocFind, if_neg hky]
      exact ih
    · subst hky
      rw [if_neg hkid]
      simp [assocFind, hkid]
    · rw [if_neg hkid]
      simp only [assocFind, if_neg hky]
      exact ih

theorem setMark_markExt (objs : Objs) (id : Nat) :
    MarkExt objs (setMark objs id true) := by
  induction objs with
  | nil => exact List.Forall₂.nil
  | cons p rest ih =>
    obtain ⟨k, v⟩ := p
    rw [setMark_cons]
    refine List.Forall₂.cons ?_ ih
    by_cases hp : k = id
    · rw [if_pos hp]
      exact ⟨rfl, rfl, rfl, fun _ => rfl⟩
    · rw [if_neg hp]
      exact ⟨rfl, rfl, rfl, fun h => h⟩

theorem isMarkedIn_setMark_self {objs : Objs} {id : Nat} {o : ObjectInstance}
    (h : assocFind id objs = some o) :
    isMarkedIn (setMark objs id true) id = true := by
  simp [isMarkedIn, assocFind_setMark, h]

theorem isMarkedIn_setMark {objs : Objs} {id y : Nat}
    (h : isMarkedIn (setMark objs id true) y = true) :
    isMarkedIn objs y = true ∨ y = id := by
  by_cases hy : y = id
  · exact Or.inr hy
  · left
    simpa [isMarkedIn, assocFind_setMark, hy] using h

theorem ucount_setMark_lt {objs : Objs} {id : Nat} {o : ObjectInstance}
    (h : assocFind id objs = some o) (hm : o.marked = false) :
    ucount (setMark objs id true) < ucount objs := by
  induction objs with
  | nil => simp [assocFind] at h
  | cons p rest ih =>
    obtain ⟨k, v⟩ := p
    rw [setMark_cons]
    by_cases hk : k = id
    · subst hk
      simp [assocFind] at h
      subst h
      have hrest : ucount (setMark rest k true) ≤ ucount rest :=
        markExt_ucount (setMark_markExt rest k)
      rw [if_pos rfl]
      simp only [ucount, List.countP_cons] at *
      simp [hm]
      omega
    · simp [assocFind, hk] at h
      have := ih h
      rw [if_neg hk]
      simp only [ucount, List.countP_cons] at *
      cases hv : v.marked <;> simp <;> omega

theorem foldl_markExt_of {f : Objs → Nat → Objs}
    (hf : ∀ objs id, MarkExt objs (f objs id)) :
    ∀ (l : List Nat) (objs : Objs), MarkExt objs (l.foldl f objs) := by
  intro l
  induction l with
  | nil => intro objs; exact markExt_refl objs
  | cons r rest ih =>
    intro objs
    exact markExt_trans (hf objs r) (ih (f objs r))

theorem markObjectF_markExt : ∀ (fuel : Nat) (objs : Objs) (id : Nat),
    MarkExt objs (markObjectF fuel objs id) := by
  intro fuel
  induction fuel with
  | zero => intro objs id; exact markExt_refl objs
  | succ n ih =>
    intro objs id
    cases hfind : assocFind id objs with
    | none => simpa [markObjectF, hfind] using markExt_refl objs
    | some o =>
      by_cases hm : o.marked
      · simpa [markObjectF, hfind, hm] using markExt_refl objs
      · simp only [markObjectF, hfind, hm, if_false]
        exact markExt_trans (setMark_markExt objs id)
          (foldl_markExt_of ih (getReferences o) (setMark objs id true))

/-- Transport of reachability backward along `MarkExt` (fields and presence
are preserved in both directions; only marks differ). -/
theorem markExt_reaches_rev {a b : Objs} (h : MarkExt a b) {x y : Nat}
    (hr : ReachesFrom b x y) : ReachesFrom a x y := by
  induction hr with
  | refl => exact ReachesFrom.refl _
  | step hab hb hc ih =>
    rename_i b' c' o
    rcases markExt_assocFind h b' with ⟨_, h2⟩ | ⟨o₁, o₂, h1, h2, _, hf, _⟩
    · rw [h2] at hb; cases hb
    · rw [h2] at hb
      cases hb
      refine ReachesFrom.step ih h1 ?_
      simpa [getReferences, hf] using hc

/-- Soundness of the marking DFS: every object it marks was already marked
or is reachable from the start handle. -/
theorem markObjectF_sound : ∀ (fuel : Nat) (objs : Objs) (id y : Nat),
    isMarkedIn (markObjectF fuel objs id) y = true →
    isMarkedIn objs y = true ∨ ReachesFrom objs id y := by
  intro fuel
  induction fuel with
  | zero => intro objs id y h; exact Or.inl h
  | succ n ih =>
    intro objs id y h
    cases hfind : assocFind id objs with
    | none => left; simpa [markObjectF, hfind] using h
    | some o =>
      by_cases hm : o.marked
      · left; simpa [markObjectF, hfind, hm] using h
      · simp only [markObjectF, hfind, hm, if_false] at h
        have inner : ∀ (l : List Nat) (acc : Objs), MarkExt objs acc →
            isMarkedIn (l.foldl (markObjectF n) acc) y = true →
            isMarkedIn acc y = true ∨ ∃ r ∈ l, ReachesFrom objs r y := by
          intro l
          induction l with
          | nil => intro acc _ hy; exact Or.inl hy
          | cons r rest ihl =>
            intro acc hext hy
            rcases ihl (markObjectF n acc r)
                (markExt_trans hext (markObjectF_markExt n acc r)) hy with
              h1 | ⟨r', hr', hrr⟩
            · rcases ih acc r y h1 with h2 | h2
              · exact Or.inl h2
              · exact Or.inr ⟨r, List.mem_cons_self _ _,
                  markExt_reaches_rev hext h2⟩
            · exact Or.inr ⟨r', List.mem_cons_of_mem _ hr', hrr⟩
        rcases inner (getReferences o) (setMark objs id true)
            (setMark_markExt objs id) h with h1 | ⟨r, hr, hrr⟩
        · rcases isMarkedIn_setMark h1 with h2 | h2
          · exact Or.inl h2
          · subst h2
            exact Or.inr (ReachesFrom.refl y)
        · exact Or.inr (reachesFrom_trans
            (ReachesFrom.step (ReachesFrom.refl id) hfind hr) hrr)

/-- Completeness core for the marking DFS: with fuel exceeding the number of
unmarked objects, the call marks its start handle (when present), and it
preserves closure of the marked set under present references, up to an
arbitrary excuse relation `P` that survives the recursion. -/
theorem markObjectF_closed : ∀ (fuel : Nat) (objs : Objs) (id : Nat)
    (P : Nat → Nat → Prop),
    ucount objs < fuel →
    (∀ y c, isMarkedIn objs y = true → c ∈ refsOf objs y →
      isPresent objs c = true → isMarkedIn objs c = true ∨ P y c) →
    (isPresent objs id = true → isMarkedIn (markObjectF fuel objs id) id = true) ∧
    (∀ y c, isMarkedIn (markObjectF fuel objs id) y = true →
      c ∈ refsOf (markObjectF fuel objs id) y →
      isPresent (markObjectF fuel objs id) c = true →
      isMarkedIn (markObjectF fuel objs id) c = true ∨ P y c) := by
  intro fuel
  induction fuel with
  | zero => intro objs id P hfuel _; omega
  | succ n ih =>
    intro objs id P hfuel hcl
    cases hfind : assocFind id objs with
    | none =>
      refine ⟨fun hp => ?_, ?_⟩
      · simp [isPresent, hfind] at hp
      · simpa [markObjectF, hfind] using hcl
    | some o =>
      by_cases hm : o.marked
      · rw [show markObjectF (n + 1) objs id = objs from by
          simp [markObjectF, hfind, hm]]
        exact ⟨fun _ => by simp [isMarkedIn, hfind, hm], hcl⟩
      · have hmf : o.marked = false := by simpa using hm
        rw [show markObjectF (n + 1) objs id
            = (getReferences o).foldl (markObjectF n) (setMark objs id true) from by
          simp [markObjectF, hfind, hm]]
        have hext₁ : MarkExt objs (setMark objs id true) := setMark_markExt objs id
        have hid₁ : isMarkedIn (setMark objs id true) id = true :=
          isMarkedIn_setMark_self hfind
        have hcnt₁ : ucount (setMark objs id true) < ucount objs :=
          ucount_setMark_lt hfind hmf
        have hrefsid : refsOf objs id = getReferences o := by simp [refsOf, hfind]
        have hcl₁ : ∀ y c, isMarkedIn (setMark objs id true) y = true →
            c ∈ refsOf (setMark objs id true) y →
            isPresent (setMark objs id true) c = true →
            isMarkedIn (setMark objs id true) c = true ∨ P y c ∨
              (y = id ∧ c ∈ getReferences o) := by
          intro y c hy hc hp
          rcases isMarkedIn_setMark hy with hy' | rfl
          · have hc' : c ∈ refsOf objs y := by
              rw [markExt_refsOf hext₁ y]; exact hc
            have hp' : isPresent objs c = true := by
              rw [markExt_present hext₁ c]; exact hp
            rcases hcl y c hy' hc' hp' with h | h
            · exact Or.inl (markExt_marked hext₁ h)
            · exact Or.inr (Or.inl h)
          · right; right
            refine ⟨rfl, ?_⟩
            rw [← markExt_refsOf hext₁ y, hrefsid] at hc
            exact hc
        have inner : ∀ (l : List Nat) (acc : Objs),
            MarkExt (setMark objs id true) acc →
            ucount acc < n →
            (∀ y c, isMarkedIn acc y = true → c ∈ refsOf acc y →
              isPresent acc c = true →
              isMarkedIn acc c = true ∨ P y c ∨ (y = id ∧ c ∈ getReferences o)) →
            MarkExt acc (l.foldl (markObjectF n) acc) ∧
            (∀ y c, isMarkedIn (l.foldl (markObjectF n) acc) y = true →
              c ∈ refsOf (l.foldl (markObjectF n) acc) y →
              isPresent (l.foldl (markObjectF n) acc) c = true →
              isMarkedIn (l.foldl (markObjectF n) acc) c = true ∨ P y c ∨
                (y = id ∧ c ∈ getReferences o)) ∧
            (∀ r ∈ l, isPresent acc r = true →
              isMarkedIn (l.foldl (markObjectF n) acc) r = true) := by
          intro l
          induction l with
          | nil =>
            intro acc _ _ hacc
            exact ⟨markExt_refl acc, hacc, by simp⟩
          | cons r rest ihl =>
            intro acc hext hcnt hacc
            obtain ⟨hmark_r, hcl₂⟩ :=
              ih acc r (fun y c => P y c ∨ (y = id ∧ c ∈ getReferences o)) hcnt hacc
            have hext₂ : MarkExt acc (markObjectF n acc r) :=
              markObjectF_markExt n acc r
            have hcnt₂ : ucount (markObjectF n acc r) < n :=
              lt_of_le_of_lt (markExt_ucount hext₂) hcnt
            obtain ⟨hextR, hclR, hmarksR⟩ :=
              ihl (markObjectF n acc r) (markExt_trans hext hext₂) hcnt₂ hcl₂
            simp only [List.foldl_cons]
            refine ⟨markExt_trans hext₂ hextR, hclR, ?_⟩
            intro r' hr' hpres
            rcases List.mem_cons.1 hr' with rfl | hr'
            · exact markExt_marked hextR (hmark_r hpres)
            · have hpres₂ : isPresent (markObjectF n acc r) r' = true := by
                rw [← markExt_present hext₂ r']; exact hpres
              exact hmarksR r' hr' hpres₂
        obtain ⟨hextR, hclR, hmarksR⟩ :=
          inner (getReferences o) (setMark objs id true) (markExt_refl _)
            (by omega) hcl₁
        constructor
        · intro _
          exact markExt_marked hextR hid₁
        · intro y c hy hc hp
          rcases hclR y c hy hc hp with h | h | ⟨rfl, hcref⟩
          · exact Or.inl h
          · exact Or.inr h
          · have hpres₁ : isPresent (setMark objs y true) c = true := by
              rw [markExt_present hextR c]; exact hp
            exact Or.inl (hmarksR c hcref hpres₁)

/-! ### The mark phase computes root reachability -/

theorem assocFind_unmarkAll (objs : Objs) (y : Nat) :
    assocFind y (unmarkAll objs) =
      (assocFind y objs).map (fun o => { o with marked := false }) := by
  induction objs with
  | nil => simp [unmarkAll, assocFind]
  | cons p rest ih =>
    obtain ⟨k, v⟩ := p
    rw [show unmarkAll ((k, v) :: rest)
        = (k, { v with marked := false }) :: unmarkAll rest from by
      simp [unmarkAll]]
    by_cases hky : k = y
    · subst hky
      simp [assocFind]
    · simp only [assocFind, if_neg hky]
      exact ih

theorem unmarkAll_present (objs : Objs) (y : Nat) :
    isPresent (unmarkAll objs) y = isPresent objs y := by
  simp only [isPresent, assocFind_unmarkAll]
  cases assocFind y objs <;> rfl

theorem unmarkAll_unmarked (objs : Objs) (y : Nat) :
    isMarkedIn (unmarkAll objs) y = false := by
  simp only [isMarkedIn, assocFind_unmarkAll]
  cases assocFind y objs <;> rfl

theorem unmarkAll_length (objs : Objs) : (unmarkAll objs).length = objs.length :=
  List.length_map _ _

theorem reachesFrom_unmarkAll_iff (objs : Objs) (x y : Nat) :
    ReachesFrom (unmarkAll objs) x y ↔ ReachesFrom objs x y := by
  constructor <;> intro h
  · induction h with
    | refl => exact ReachesFrom.refl _
    | step hab hb hc ih =>
      rename_i b' c' o
      rw [assocFind_unmarkAll] at hb
      cases ho : assocFind b' objs with
      | none => rw [ho] at hb; cases hb
      | some o' =>
        rw [ho] at hb
        simp only [Option.map_some'] at hb
        cases hb
        refine ReachesFrom.step ih ho ?_
        simpa [getReferences] using hc
  · induction h with
    | refl => exact ReachesFrom.refl _
    | step hab hb hc ih =>
      rename_i b' c' o
      refine ReachesFrom.step ih (o := { o with marked := false }) ?_ ?_
      · rw [assocFind_unmarkAll, hb]; rfl
      · simpa [getReferences] using hc

theorem marked_present {objs : Objs} {y : Nat}
    (h : isMarkedIn objs y = true) : isPresent objs y = true := by
  unfold isMarkedIn at h
  cases hf : assocFind y objs with
  | none => rw [hf] at h; cases h
  | some o => simp [isPresent, hf]

/-- Closure of the marked set under present references. -/
def MarkClosed (objs : Objs) : Prop :=
  ∀ y c, isMarkedIn objs y = true → c ∈ refsOf objs y →
    isPresent objs c = true → isMarkedIn objs c = true

theorem marked_of_reaches {objs : Objs} (hcl : MarkClosed objs) {x y : Nat}
    (hx : isMarkedIn objs x = true) (hr : ReachesFrom objs x y) :
    isPresent objs y = true → isMarkedIn objs y = true := by
  induction hr with
  | refl => intro _; exact hx
  | step hab hb hc ih =>
    rename_i b' c' o
    intro _
    have hbp : isPresent objs b' = true := by simp [isPresent, hb]
    have hbm : isMarkedIn objs b' = true := ih hbp
    refine hcl b' c' hbm ?_ (by assumption)
    simp [refsOf, hb, hc]

/-- After the mark phase an object is marked exactly when it is present in
the table and reachable from some registered root slot. -/
theorem markReachable_marked_iff (mm : MemoryManager) (y : Nat) :
    isMarkedIn (markReachableObjects mm).allocatedObjects y = true ↔
      (isPresent mm.allocatedObjects y = true ∧ RootReachable mm y) := by
  set objs0 := unmarkAll mm.allocatedObjects with hobjs0
  have main : ∀ (roots : List (Option Nat)) (acc : Objs),
      MarkExt objs0 acc → MarkClosed acc →
      MarkExt acc (roots.foldl
        (fun objs root => match root with
          | some id => markObjectF (markFuel objs0) objs id
          | none => objs) acc) ∧
      MarkClosed (roots.foldl
        (fun objs root => match root with
          | some id => markObjectF (markFuel objs0) objs id
          | none => objs) acc) ∧
      (∀ id, some id ∈ roots → isPresent acc id = true →
        isMarkedIn (roots.foldl
          (fun objs root => match root with
            | some id => markObjectF (markFuel objs0) objs id
            | none => objs) acc) id = true) ∧
      (∀ z, isMarkedIn (roots.foldl
          (fun objs root => match root with
            | some id => markObjectF (markFuel objs0) objs id
            | none => objs) acc) z = true →
        isMarkedIn acc z = true ∨
          ∃ id, some id ∈ roots ∧ ReachesFrom acc id z) := by
    intro roots
    induction roots with
    | nil =>
      intro acc _ hclosed
      exact ⟨markExt_refl acc, hclosed, by simp, fun z h => Or.inl h⟩
    | cons root rest ih =>
      intro acc hext hclosed
      cases root with
      | none =>
        obtain ⟨ha, hb, hc, hd⟩ := ih acc hext hclosed
        simp only [List.foldl_cons]
        refine ⟨ha, hb, ?_, ?_⟩
        · intro id hid hp
          rcases List.mem_cons.1 hid with h | h
          · cases h
          · exact hc id h hp
        · intro z hz
          rcases hd z hz with h | ⟨id, hid, hr⟩
          · exact Or.inl h
          · exact Or.inr ⟨id, List.mem_cons_of_mem _ hid, hr⟩
      | some rid =>
        have hfuel : ucount acc < markFuel objs0 := by
          have h1 : ucount acc ≤ acc.length := ucount_le_length acc
          have h2 : acc.length = objs0.length := (markExt_length hext).symm
          simp only [markFuel]
          omega
        obtain ⟨hmark_rid, hclosed₂'⟩ :=
          markObjectF_closed (markFuel objs0) acc rid (fun _ _ => False) hfuel
            (fun y c hy hc hp => Or.inl (hclosed y c hy hc hp))
        have hclosed₂ : MarkClosed (markObjectF (markFuel objs0) acc rid) := by
          intro y c hy hc hp
          rcases hclosed₂' y c hy hc hp with h | h
          · exact h
          · cases h
        have hext₂ : MarkExt acc (markObjectF (markFuel objs0) acc rid) :=
          markObjectF_markExt _ acc rid
        obtain ⟨hextR, hclR, hcR, hdR⟩ :=
          ih (markObjectF (markFuel objs0) acc rid)
            (markExt_trans hext hext₂) hclosed₂
        simp only [List.foldl_cons]
        refine ⟨markExt_trans hext₂ hextR, hclR, ?_, ?_⟩
        · intro id hid hp
          rcases List.mem_cons.1 hid with h | h
          · cases h
            exact markExt_marked hextR (hmark_rid hp)
          · refine hcR id h ?_
            rw [← markExt_present hext₂ id]
            exact hp
        · intro z hz
          rcases hdR z hz with h | ⟨id, hid, hr⟩
          · rcases markObjectF_sound (markFuel objs0) acc rid z h with h' | h'
            · exact Or.inl h'
            · exact Or.inr ⟨rid, List.mem_cons_self _ _, h'⟩
          · exact Or.inr ⟨id, List.mem_cons_of_mem _ hid,
              markExt_reaches_rev hext₂ hr⟩
  have hclosed0 : MarkClosed objs0 := by
    intro y c hy
    rw [unmarkAll_unmarked] at hy
    cases hy
  obtain ⟨hextR, hclR, hcR, hdR⟩ :=
    main mm.rootReferences objs0 (markExt_refl objs0) hclosed0
  have hRdef : (markReachableObjects mm).allocatedObjects =
      mm.rootReferences.foldl
        (fun objs root => match root with
          | some id => markObjectF (markFuel objs0) objs id
          | none => objs) objs0 := by
    simp only [markReachableObjects, hobjs0]
  rw [hRdef]
  constructor
  · intro hy
    have hpres : isPresent mm.allocatedObjects y = true := by
      rw [← unmarkAll_present, ← hobjs0, markExt_present hextR y]
      exact marked_present hy
    refine ⟨hpres, ?_⟩
    rcases hdR y hy with h | ⟨id, hid, hr⟩
    · rw [unmarkAll_unmarked] at h
      cases h
    · exact ⟨id, hid, (reachesFrom_unmarkAll_iff _ _ _).1 hr⟩
  · rintro ⟨hp, id, hid, hr⟩
    have hr0 : ReachesFrom objs0 id y := (reachesFrom_unmarkAll_iff _ _ _).2 hr
    have hpy0 : isPresent objs0 y = true := by
      rw [hobjs0, unmarkAll_present]
      exact hp
    rcases reachesFrom_src_present hr0 with h | h
    · subst h
      exact hcR id hid hpy0
    · have hmid : isMarkedIn (mm.rootReferences.foldl
          (fun objs root => match root with
            | some id => markObjectF (markFuel objs0) objs id
            | none => objs) objs0) id = true := hcR id hid h
      refine marked_of_reaches hclR hmid (markExt_reaches hextR hr0) ?_
      rw [← markExt_present hextR y]
      exact hpy0

/-! ### Sweep and full collection -/

theorem isPresent_iff_mem {objs : Objs} {y : Nat} :
    isPresent objs y = true ↔ y ∈ tableIds objs := by
  simp [isPresent, assocFind_isSome_iff_mem, tableIds]

theorem tableIds_unmarkAll (objs : Objs) :
    tableIds (unmarkAll objs) = tableIds objs := by
  simp [tableIds, unmarkAll]

theorem markReachable_markExt (mm : MemoryManager) :
    MarkExt (unmarkAll mm.allocatedObjects)
      (markReachableObjects mm).allocatedObjects := by
  have main : ∀ (fuel : Nat) (roots : List (Option Nat)) (acc : Objs),
      MarkExt acc (roots.foldl
        (fun objs root => match root with
          | some id => markObjectF fuel objs id
          | none => objs) acc) := by
    intro fuel roots
    induction roots with
    | nil => intro acc; exact markExt_refl acc
    | cons root rest ih =>
      intro acc
      cases root with
      | none => simpa using ih acc
      | some rid =>
        simp only [List.foldl_cons]
        exact markExt_trans (markObjectF_markExt fuel acc rid) (ih _)
  simpa [markReachableObjects] using
    main (markFuel (unmarkAll mm.allocatedObjects)) mm.rootReferences
      (unmarkAll mm.allocatedObjects)

theorem tableIds_markReachable (mm : MemoryManager) :
    tableIds (markReachableObjects mm).allocatedObjects =
      tableIds mm.allocatedObjects := by
  rw [← markExt_ids (markReachable_markExt mm), tableIds_unmarkAll]

theorem mem_ids_filter_marked {objs : Objs} {y : Nat}
    (hnd : (tableIds objs).Nodup) :
    y ∈ tableIds (objs.filter (fun p => p.2.marked)) ↔
      isMarkedIn objs y = true := by
  constructor
  · intro h
    obtain ⟨p, hp, hpy⟩ := List.mem_map.1 h
    have hpf := List.mem_filter.1 hp
    have hlook : assocFind y objs = some p.2 := by
      refine assocFind_eq_some_of_mem hnd ?_
      rw [← hpy]
      exact hpf.1
    simp only [isMarkedIn, hlook]
    simpa using hpf.2
  · intro h
    have hp : isPresent objs y = true := marked_present h
    obtain ⟨o, ho⟩ := Option.isSome_iff_exists.1 hp
    have hom : o.marked = true := by
      simpa [isMarkedIn, ho] using h
    exact List.mem_map.2 ⟨(y, o),
      List.mem_filter.2 ⟨mem_of_assocFind_eq_some ho, by simpa using hom⟩, rfl⟩

theorem nodup_filter_ids {objs : Objs} (hnd : (tableIds objs).Nodup)
    (p : Nat × ObjectInstance → Bool) :
    (tableIds (objs.filter p)).Nodup :=
  List.Nodup.sublist (List.Sublist.map Prod.fst (List.filter_sublist objs)) hnd

theorem assocFind_filter_marked {objs : Objs} {y : Nat} {o : ObjectInstance}
    (hnd : (tableIds objs).Nodup) (h : assocFind y objs = some o)
    (hm : o.marked = true) :
    assocFind y (objs.filter (fun p => p.2.marked)) = some o := by
  have hmem : (y, o) ∈ objs := mem_of_assocFind_eq_some h
  have hmemf : (y, o) ∈ objs.filter (fun p => p.2.marked) :=
    List.mem_filter.2 ⟨hmem, by simpa using hm⟩
  exact assocFind_eq_some_of_mem (nodup_filter_ids hnd _) hmemf

/-- Full characterization of `collectGarbage` on the live-object table: after
a collection the table holds exactly the objects that were present before
and reachable from some registered root. -/
theorem collect_mem_iff (mm : MemoryManager)
    (hnd : (tableIds mm.allocatedObjects).Nodup) (y : Nat) :
    y ∈ tableIds (collectGarbage mm).1.allocatedObjects ↔
      (y ∈ tableIds mm.allocatedObjects ∧ RootReachable mm y) := by
  have hndR : (tableIds (markReachableObjects mm).allocatedObjects).Nodup := by
    rw [tableIds_markReachable]
    exact hnd
  have hR : (collectGarbage mm).1.allocatedObjects
      = (markReachableObjects mm).allocatedObjects.filter
          (fun p => p.2.marked) := rfl
  rw [hR, mem_ids_filter_marked hndR, markReachable_marked_iff, isPresent_iff_mem]

theorem collect_roots (mm : MemoryManager) :
    (collectGarbage mm).1.rootReferences = mm.rootReferences := rfl

/-- A reachability path from a registered root survives the collection: all
its nodes are reachable, hence kept in the swept table with their fields. -/
theorem reaches_in_swept (mm : MemoryManager)
    (hnd : (tableIds mm.allocatedObjects).Nodup) {id y : Nat}
    (hroot : some id ∈ mm.rootReferences)
    (hr : ReachesFrom mm.allocatedObjects id y) :
    ReachesFrom (collectGarbage mm).1.allocatedObjects id y := by
  have hndR : (tableIds (markReachableObjects mm).allocatedObjects).Nodup := by
    rw [tableIds_markReachable]
    exact hnd
  induction hr with
  | refl => exact ReachesFrom.refl _
  | step hab hb hc ih =>
    rename_i b' c' o
    have hbreach : RootReachable mm b' := ⟨id, hroot, hab⟩
    have hbpres : isPresent mm.allocatedObjects b' = true := by
      simp [isPresent, hb]
    have hbm : isMarkedIn (markReachableObjects mm).allocatedObjects b' = true :=
      (markReachable_marked_iff mm b').2 ⟨hbpres, hbreach⟩
    have hb0 : assocFind b' (unmarkAll mm.allocatedObjects)
        = some { o with marked := false } := by
      rw [assocFind_unmarkAll, hb]
      rfl
    rcases markExt_assocFind (markReachable_markExt mm) b' with
      ⟨h1, _⟩ | ⟨o₀, o₁, h1, h2, _, hf, _⟩
    · rw [hb0] at h1; cases h1
    · rw [hb0] at h1
      cases h1
      have ho₁m : o₁.marked = true := by
        simpa [isMarkedIn, h2] using hbm
      have hbT : assocFind b' (collectGarbage mm).1.allocatedObjects = some o₁ :=
        assocFind_filter_marked hndR h2 ho₁m
      refine ReachesFrom.step ih hbT ?_
      have : getReferences o₁ = getReferences o := by
        simp [getReferences, ← hf]
      rw [this]
      exact hc

/-- A table of all-marked objects that mark-extends the unmarking of another
all-marked table is equal to it. -/
theorem unmark_markExt_eq {t f : Objs} (h : MarkExt (unmarkAll t) f)
    (ht : ∀ p ∈ t, p.2.marked = true) (hf : ∀ p ∈ f, p.2.marked = true) :
    f = t := by
  induction t generalizing f with
  | nil =>
    cases h
    rfl
  | cons p rest ih =>
    simp only [unmarkAll, List.map_cons] at h
    cases h with
    | cons hpq htail =>
      rename_i q restf
      obtain ⟨hk, hcls, hfld, _⟩ := hpq
      simp only at hk hcls hfld
      have hpm : p.2.marked = true := ht p (List.mem_cons_self _ _)
      have hqm : q.2.marked = true := hf q (List.mem_cons_self _ _)
      have hq : q = p := by
        obtain ⟨k₁, o₁⟩ := p
        obtain ⟨k₂, o₂⟩ := q
        simp only at hk hcls hfld hpm hqm
        cases o₁
        cases o₂
        simp only at hcls hfld hpm hqm
        simp [← hk, hcls, hfld, hpm, hqm]
      subst hq
      have hrest : restf = rest := by
        refine ih ?_ (fun p hp => ht p (List.mem_cons_of_mem _ hp))
          (fun p hp => hf p (List.mem_cons_of_mem _ hp))
        exact htail
      rw [hrest]

/-! ### Claim C2 -/

/-- C2: for every heap state and every set of registered roots (table keys
distinct, as C++ object addresses are), after `collect()` returns, an object
is in the live-object table exactly when it was there before and was
reachable from some registered root; in particular unreachable objects —
including cyclically linked ones — are removed (their entries released) and
reachable ones are retained.  Stated over arbitrary tables, so it covers
every object graph with reference cycles. -/
theorem c2_reachability_correctness (mm : MemoryManager)
    (hnd : (tableIds mm.allocatedObjects).Nodup) :
    ∀ y, y ∈ tableIds (collectGarbage mm).1.allocatedObjects ↔
      (y ∈ tableIds mm.allocatedObjects ∧ RootReachable mm y) :=
  collect_mem_iff mm hnd

/-- Concrete heap: objects 0 and 1 reference each other (a cycle) and are
not reachable from any root; root slot 0 holds object 2 which references
object 3; one root slot is empty. -/
def gcCycleHeap : MemoryManager :=
  { allocatedObjects :=
      [(0, ⟨0, [("next", RuntimeValue.objectV 1)], false⟩),
       (1, ⟨0, [("next", RuntimeValue.objectV 0)], false⟩),
       (2, ⟨0, [("buddy", RuntimeValue.objectV 3)], false⟩),
       (3, ⟨0, [], false⟩)],
    rootReferences := [some 2, none],
    totalAllocated := 4,
    totalCollected := 0,
    collectionCount := 0 }

theorem c2_reachability_correctness_witness :
    (tableIds gcCycleHeap.allocatedObjects).Nodup ∧
    (∀ y, y ∈ tableIds (collectGarbage gcCycleHeap).1.allocatedObjects ↔
      (y ∈ tableIds gcCycleHeap.allocatedObjects ∧
        RootReachable gcCycleHeap y)) :=
  ⟨by decide, c2_reachability_correctness gcCycleHeap (by decide)⟩

/-! ### Claim C9 -/

/-- C9: with no intervening mutation, a second `collect()` frees zero
objects (the sweep's `freedCount` is 0) and leaves the live-object table
exactly as the first collection left it. -/
theorem c9_idempotent_collection (mm : MemoryManager)
    (hnd : (tableIds mm.allocatedObjects).Nodup) :
    (collectGarbage (collectGarbage mm).1).2.1 = 0 ∧
    (collectGarbage (collectGarbage mm).1).1.allocatedObjects
      = (collectGarbage mm).1.allocatedObjects := by
  have hndR : (tableIds (markReachableObjects mm).allocatedObjects).Nodup := by
    rw [tableIds_markReachable]
    exact hnd
  have hnd1 : (tableIds (collectGarbage mm).1.allocatedObjects).Nodup :=
    nodup_filter_ids hndR _
  have hT1marked : ∀ p ∈ (collectGarbage mm).1.allocatedObjects,
      p.2.marked = true := by
    intro p hp
    have := (List.mem_filter.1 hp).2
    simpa using this
  have hall : ∀ z, z ∈ tableIds (collectGarbage mm).1.allocatedObjects →
      isMarkedIn (markReachableObjects (collectGarbage mm).1).allocatedObjects
        z = true := by
    intro z hz
    obtain ⟨hzin, id, hroot, hr⟩ := (collect_mem_iff mm hnd z).1 hz
    have hrT : ReachesFrom (collectGarbage mm).1.allocatedObjects id z :=
      reaches_in_swept mm hnd hroot hr
    refine (markReachable_marked_iff (collectGarbage mm).1 z).2
      ⟨isPresent_iff_mem.2 hz, ⟨id, ?_, hrT⟩⟩
    rw [collect_roots]
    exact hroot
  have hndF2 : (tableIds
      (markReachableObjects (collectGarbage mm).1).allocatedObjects).Nodup := by
    rw [tableIds_markReachable]
    exact hnd1
  have hF2marked : ∀ p ∈
      (markReachableObjects (collectGarbage mm).1).allocatedObjects,
      p.2.marked = true := by
    intro p hp
    have hfind : assocFind p.1
        (markReachableObjects (collectGarbage mm).1).allocatedObjects
        = some p.2 := by
      refine assocFind_eq_some_of_mem hndF2 ?_
      simpa using hp
    have hmem : p.1 ∈ tableIds (collectGarbage mm).1.allocatedObjects := by
      rw [← tableIds_markReachable (collectGarbage mm).1]
      exact List.mem_map.2 ⟨p, hp, rfl⟩
    have := hall p.1 hmem
    simpa [isMarkedIn, hfind] using this
  constructor
  · show ((markReachableObjects (collectGarbage mm).1).allocatedObjects.filter
        (fun p => !p.2.marked)).length = 0
    have : (markReachableObjects (collectGarbage mm).1).allocatedObjects.filter
        (fun p => !p.2.marked) = [] := by
      rw [List.filter_eq_nil_iff]
      intro p hp
      simp [hF2marked p hp]
    rw [this]
    rfl
  · show (markReachableObjects (collectGarbage mm).1).allocatedObjects.filter
        (fun p => p.2.marked) = (collectGarbage mm).1.allocatedObjects
    have hself : (markReachableObjects (collectGarbage mm).1).allocatedObjects.filter
        (fun p => p.2.marked)
        = (markReachableObjects (collectGarbage mm).1).allocatedObjects := by
      rw [List.filter_eq_self]
      intro p hp
      simpa using hF2marked p hp
    rw [hself]
    exact unmark_markExt_eq (markReachable_markExt (collectGarbage mm).1)
      hT1marked hF2marked

/-- Concrete heap for the idempotence witness: a root-held pair with a back
reference and unreachable garbage. -/
def gcIdemHeap : MemoryManager :=
  { allocatedObjects :=
      [(5, ⟨0, [("a", RuntimeValue.objectV 6)], false⟩),
       (6, ⟨0, [("b", RuntimeValue.objectV 5)], false⟩),
       (7, ⟨0, [], false⟩)],
    rootReferences := [some 5],
    totalAllocated := 3,
    totalCollected := 0,
    collectionCount := 0 }

theorem c9_idempotent_collection_witness :
    (tableIds gcIdemHeap.allocatedObjects).Nodup ∧
    ((collectGarbage (collectGarbage gcIdemHeap).1).2.1 = 0 ∧
      (collectGarbage (collectGarbage gcIdemHeap).1).1.allocatedObjects
        = (collectGarbage gcIdemHeap).1.allocatedObjects) :=
  ⟨by decide, c9_idempotent_collection gcIdemHeap (by decide)⟩

/-! ### Runtime class model (part_000 §3 and §4.2) -/

/-- `MethodInstance` (part_000 §3.2): the `IR::Function` implementation
reference is modelled by the function's name, the `weak_ptr` to the
declaring class by its store handle. -/
structure MethodInstance where
  name : String
  implementation : String
  declaringClass : Nat
  parameterNames : List String
  isVirtual : Bool
deriving DecidableEq

/-- `ClassInstance` with the vtable of part_000 §4.2. -/
structure ClassInstance where
  name : String
  superClass : Option Nat
  methods : List (String × MethodInstance)
  fieldNames : List String
  vtable : List (String × MethodInstance)
deriving DecidableEq

/-- The class store: `shared_ptr<ClassInstance>` aliasing made explicit as
handles into this table; `addMethod` / `addField` mutate through it. -/
abbrev ClassStore := List (Nat × ClassInstance)

/-- `ClassInstance::buildVTable`: start from the superclass's vtable (empty
when there is no superclass) and overwrite with this class's own virtual
methods. -/
def buildVTable (store : ClassStore) (superClass : Option Nat)
    (methods : List (String × MethodInstance)) :
    List (String × MethodInstance) :=
  let inherited :=
    match superClass with
    | some s =>
      match assocFind s store with
      | some sc => sc.vtable
      | none => []
    | none => []
  methods.foldl
    (fun vt p => if p.2.isVirtual then setAssoc vt p.1 p.2 else vt) inherited

/-- The `ClassInstance` constructor (part_000 §4.2): members are initialized
first (`methods` empty, `fieldNames` empty), then the constructor body runs
`buildVTable()` — at which point `methods` is still empty, so the vtable it
builds is exactly the superclass's vtable at construction time. -/
def mkClassInstance (store : ClassStore) (name : String)
    (superClass : Option Nat) : ClassInstance :=
  { name := name, superClass := superClass, methods := [], fieldNames := [],
    vtable := buildVTable store superClass [] }

/-- `ClassInstance::addMethod`: map assignment into `methods`.  The vtable
is not rebuilt. -/
def ClassInstance.addMethod (c : ClassInstance) (nm : String)
    (m : MethodInstance) : ClassInstance :=
  { c with methods := setAssoc c.methods nm m }

/-- `ClassInstance::addField`. -/
def ClassInstance.addField (c : ClassInstance) (nm : String) : ClassInstance :=
  { c with fieldNames := c.fieldNames ++ [nm] }

/-- `ClassInstance::lookupMethod`, the vtable version of part_000 §4.2:
consult the vtable, then fall back to this class's own methods for
non-virtual ones only. -/
def lookupMethod (c : ClassInstance) (nm : String) : Option MethodInstance :=
  match assocFind nm c.vtable with
  | some m => some m
  | none =>
    match assocFind nm c.methods with
    | some m => if m.isVirtual then none else some m
    | none => none

/-- A class declaration as consumed by `initializeClasses` (empty
`superClassName` means no superclass). -/
structure MethodDecl where
  name : String
  parameterNames : List String
  isVirtual : Bool
deriving DecidableEq

structure ClassDecl where
  name : String
  superClassName : String
  fields : List String
  methods : List MethodDecl
deriving DecidableEq

/-- The IR module, reduced to what `initializeClasses` consumes: the set of
function names for which an implementation exists. -/
structure IRModule where
  functions : List String
deriving DecidableEq

/-- `module->getFunction(name)`. -/
def IRModule.getFunction (m : IRModule) (nm : String) : Option String :=
  if nm ∈ m.functions then some nm else none

/-- The VM's class state: the `classes` map (name to handle) plus the store
of `ClassInstance` records; `nextId` supplies fresh handles (fresh
`make_shared` addresses). -/
structure ClassTable where
  classes : List (String × Nat)
  store : ClassStore
  nextId : Nat
deriving DecidableEq

/-- Mutation of the pointed-to `ClassInstance` through its handle. -/
def updateStore (t : ClassTable) (cid : Nat)
    (f : ClassInstance → ClassInstance) : ClassTable :=
  { t with store := t.store.map (fun p => if p.1 = cid then (p.1, f p.2) else p) }

/-- `VirtualMachine::initializeClasses`, first pass: create a
`ClassInstance` per declaration (no superclass) and enter it in the class
map. -/
def initPass1 (decls : List ClassDecl) : ClassTable :=
  decls.foldl
    (fun t d =>
      { classes := setAssoc t.classes d.name t.nextId,
        store := t.store ++ [(t.nextId, mkClassInstance t.store d.name none)],
        nextId := t.nextId + 1 })
    ⟨[], [], 0⟩

/-- The inheritance-linking block of pass 2 (`if
(!classDecl->getSuperClassName().empty()) { ... }`): an undeclared
superclass name yields a null pointer from `classes[...]`, hence
`throw std::runtime_error("Super class not found: ...")`; otherwise the
`ClassInstance` is re-created with the superclass handle (running
`buildVTable` again — still before any method is added) and the class map
is re-pointed at it.  Returns the table and the handle that subsequent
`addField` / `addMethod` calls mutate. -/
def initLinkSuper (t : ClassTable) (d : ClassDecl) (cid0 : Nat) :
    Except String (ClassTable × Nat) :=
  if d.superClassName ≠ "" then
    match assocFind d.superClassName t.classes with
    | none => Except.error ("Super class not found: " ++ d.superClassName)
    | some sid =>
      Except.ok
        ({ classes := setAssoc t.classes d.name t.nextId,
           store := t.store ++
             [(t.nextId, mkClassInstance t.store d.name (some sid))],
           nextId := t.nextId + 1 }, t.nextId)
  else Except.ok (t, cid0)

/-- The method-installation loop of pass 2: each declared method needs an
implementation named `Class.method` in the module
(`throw std::runtime_error("Method implementation not found: ...")`
otherwise) and is added to the class record through its handle. -/
def initAddMethods (module : IRModule) (d : ClassDecl) (cid : Nat)
    (t : ClassTable) : Except String ClassTable :=
  d.methods.foldlM
    (fun t m =>
      match module.getFunction (d.name ++ "." ++ m.name) with
      | none =>
        Except.error ("Method implementation not found: " ++ m.name)
      | some impl =>
        Except.ok (updateStore t cid
          (fun c => c.addMethod m.name
            ⟨m.name, impl, cid, m.parameterNames, m.isVirtual⟩)))
    t

/-- `VirtualMachine::initializeClasses`, second pass for one declaration:
look up the pass-1 instance, link the superclass, then add fields, then add
methods.  Errors model the C++ `throw`, which aborts initialization.  The
"class missing" branch is unreachable after pass 1. -/
def initPass2Step (module : IRModule) (t : ClassTable) (d : ClassDecl) :
    Except String ClassTable :=
  match assocFind d.name t.classes with
  | none => Except.error "internal: class missing from pass 1"
  | some cid0 =>
    match initLinkSuper t d cid0 with
    | Except.error e => Except.error e
    | Except.ok (t1, cid) =>
      initAddMethods module d cid
        (updateStore t1 cid
          (fun c => d.fields.foldl (fun c nm => c.addField nm) c))

/-- `VirtualMachine::initializeClasses`: pass 1 then pass 2 over all
declarations. -/
def initializeClasses (module : IRModule) (decls : List ClassDecl) :
    Except String ClassTable :=
  decls.foldlM (initPass2Step module) (initPass1 decls)

/-! ### Call frames and the virtual machine -/

/-- Call frame (`StackFrame`).  The locals vector default-constructs its
slots (part_005: `locals.resize(10)`), and a default-constructed
`RuntimeValue` is NULL (part_005 §2.2); the name-addressed view used by
`executeMethodCall` (part_000 §4.1) is therefore modelled as an association
list whose absent names read as `nullV`.  The `IR::Function` the frame is
bound to is modelled by its name. -/
structure StackFrame where
  functionName : String
  locals : List (String × RuntimeValue)
  instructionPointer : Nat
deriving DecidableEq

/-- `StackFrame::setLocal`. -/
def StackFrame.setLocal (f : StackFrame) (nm : String) (v : RuntimeValue) :
    StackFrame :=
  { f with locals := setAssoc f.locals nm v }

/-- Read of a local slot; a never-written slot holds the default-constructed
`RuntimeValue`, which is NULL. -/
def StackFrame.getLocal (f : StackFrame) (nm : String) : RuntimeValue :=
  (assocFind nm f.locals).getD RuntimeValue.nullV

/-- `VirtualMachine::ExceptionHandler`: plain instruction offsets plus the
catch variable name.  The struct records no owning frame or function. -/
structure ExceptionHandler where
  tryStart : Nat
  tryEnd : Nat
  catchStart : Nat
  finallyStart : Nat
  exceptionVar : String
deriving DecidableEq

/-- `Exception` (part_000 §5.1): type, message, optional object payload. -/
structure ExceptionRecord where
  type : String
  message : String
  data : Option Nat
deriving DecidableEq

/-- The virtual machine state (part_000 §2.3 / §5.2).  `operandStack` has
its top at the head (`std::stack`); `callStack` has its top at the END
(`std::vector` with `push_back` / `back` / `pop_back`).  `currentFrame` is
the pointer to `callStack.back()` and is modelled as derived state.
`exceptionHandlers` is the single VM-wide handler vector. -/
structure VirtualMachine where
  operandStack : List RuntimeValue
  callStack : List StackFrame
  memoryManager : MemoryManager
  classes : List (String × Nat)
  classStore : ClassStore
  exceptionHandlers : List ExceptionHandler
  currentException : Option ExceptionRecord
deriving DecidableEq

/-- `VirtualMachine::findHandler`: linear scan of the VM-wide handler list
for the first range containing `position`; only the position is consulted. -/
def findHandler (handlers : List ExceptionHandler) (position : Nat) :
    Option ExceptionHandler :=
  handlers.find? (fun h => position ≥ h.tryStart && position < h.tryEnd)

/-- Result of a VM operation whose failures are C++-level
`throw std::runtime_error`: `hostError` propagates to the embedding host
program (part_005's driver catches `std::exception` and exits 1), not into
the BLang `ExceptionController`. -/
inductive CallResult where
  | ok (vm : VirtualMachine)
  | hostError (msg : String)
deriving DecidableEq

/-- `VirtualMachine::executeMethodCall` (part_000 §4.1): pop `argCount`
arguments (each inserted at the front of `args`, so `args` ends up in push
order), pop the receiver, check it is an object, resolve the method on the
receiver's class, then build a frame, bind `this`, bind the first
`min(params, args)` parameters positionally, and push the frame.  The
guards for an underfull operand stack and a dangling handle stand for C++
undefined behaviour / impossible states and are not exercised by the
claims. -/
def executeMethodCall (vm : VirtualMachine) (methodName : String)
    (argCount : Nat) : CallResult :=
  if argCount + 1 > vm.operandStack.length then
    CallResult.hostError "operand stack underflow"
  else
    let args := (vm.operandStack.take argCount).reverse
    let rest0 := vm.operandStack.drop argCount
    let receiver := rest0.headD RuntimeValue.nullV
    let rest := rest0.drop 1
    match receiver with
    | RuntimeValue.objectV oid =>
      match assocFind oid vm.memoryManager.allocatedObjects with
      | none => CallResult.hostError "dangling object handle"
      | some obj =>
        match assocFind obj.classId vm.classStore with
        | none => CallResult.hostError "dangling class handle"
        | some classInst =>
          match lookupMethod classInst methodName with
          | none => CallResult.hostError ("Method not found: " ++ methodName)
          | some m =>
            let frame0 : StackFrame := ⟨m.implementation, [], 0⟩
            let frame1 := frame0.setLocal "this" receiver
            let frame := (m.parameterNames.zip args).foldl
              (fun f p => f.setLocal p.1 p.2) frame1
            CallResult.ok { vm with
              operandStack := rest,
              callStack := vm.callStack ++ [frame] }
    | _ => CallResult.hostError "Cannot call method on non-object value"

/-- Explicit collection through the VM: `collectGarbage` reads only the
`MemoryManager` — `markReachableObjects` iterates `rootReferences` alone;
nothing consults `callStack` locals. -/
def vmCollect (vm : VirtualMachine) : VirtualMachine :=
  { vm with memoryManager := (collectGarbage vm.memoryManager).1 }

/-- The value bound to the catch variable,
`RuntimeValue(currentException->getData())`: the C++ wraps the payload
pointer in an OBJECT-kind value; an absent payload is modelled as NULL. -/
def exceptionDataValue : Option Nat → RuntimeValue
  | some id => RuntimeValue.objectV id
  | none => RuntimeValue.nullV

/-- Observable outcome of `throwException`: `handled` = control transferred
into a catch; `uncaught` = "Uncaught exception: type: message" printed to
stderr, after which the function RETURNS to its caller; `noFrames` = the
while-loop guard failed immediately (empty call stack, nothing reported);
`fuelExhausted` is an artifact of the fuel embedding, unreachable in the
uses below. -/
inductive ThrowOutcome where
  | handled
  | uncaught (type message : String)
  | noFrames
  | fuelExhausted
deriving DecidableEq

/-- One `while (!callStack.empty())` pass of
`VirtualMachine::throwException` (part_000 §5.2).  `execFin` stands for
`executeUntilReturn`, the interpreter loop running a finally block — an
external collaborator that may transform the whole VM state (it can even
push frames, which is why the loop carries fuel rather than a structural
measure).  The C++ takes `getInstructionPointer() - 1` on a signed int and
passes it to a `size_t` position; for `ip = 0` the C++ value is huge (no
range contains it) while truncated `Nat` subtraction gives 0 — the theorems
below never exercise that corner.  The in-flight exception is re-read from
the state after a finally body runs, as the C++ reads `currentException`. -/
def throwExceptionLoop (execFin : VirtualMachine → VirtualMachine) :
    Nat → VirtualMachine → ExceptionRecord → VirtualMachine × ThrowOutcome
  | 0, vm, _ => (vm, ThrowOutcome.fuelExhausted)
  | fuel + 1, vm, exc =>
    match vm.callStack.getLast? with
    | none => (vm, ThrowOutcome.noFrames)
    | some frame =>
      match findHandler vm.exceptionHandlers frame.instructionPointer with
      | some h =>
        let frame' :=
          ({ frame with instructionPointer := h.catchStart }).setLocal
            h.exceptionVar (exceptionDataValue exc.data)
        ({ vm with callStack := vm.callStack.dropLast ++ [frame'] },
          ThrowOutcome.handled)
      | none =>
        let vmF :=
          match findHandler vm.exceptionHandlers
              (frame.instructionPointer - 1) with
          | some h2 =>
            if h2.finallyStart ≠ 0 then
              execFin { vm with callStack :=
                vm.callStack.dropLast ++
                  [{ frame with instructionPointer := h2.finallyStart }] }
            else vm
          | none => vm
        let excNow := vmF.currentException.getD exc
        let vm2 := { vmF with callStack := vmF.callStack.dropLast }
        if vm2.callStack.isEmpty then
          (vm2, ThrowOutcome.uncaught excNow.type excNow.message)
        else
          throwExceptionLoop execFin fuel vm2 excNow

/-- `VirtualMachine::throwException`: construct the `ExceptionRecord`,
store it as the in-flight `currentException`, and unwind.  The fuel
`callStack.length + 1` is sufficient whenever no finally body runs (each
pass then pops exactly one frame) and in the first-frame-handled case. -/
def throwException (execFin : VirtualMachine → VirtualMachine)
    (vm : VirtualMachine) (type message : String) (data : Option Nat) :
    VirtualMachine × ThrowOutcome :=
  let exc : ExceptionRecord := ⟨type, message, data⟩
  throwExceptionLoop execFin (vm.callStack.length + 1)
    { vm with currentException := some exc } exc

/-- `VirtualMachine::executeTryBegin`: append to the single VM-wide
`exceptionHandlers` vector a handler whose try-region starts at the current
frame's instruction pointer.  `catchIndex` / `finallyIndex` are the
instruction indices of the catch / finally basic blocks named by the
instruction operands (a "null" finally operand stores offset 0); block-name
resolution inside the current function is IR bookkeeping outside the
claims.  `tryEnd` is left 0 until `executeTryEnd` assigns it.  No frame or
function identity is recorded. -/
def executeTryBegin (vm : VirtualMachine) (catchIndex : Nat)
    (finallyIndex : Option Nat) (exceptionVar : String) : VirtualMachine :=
  match vm.callStack.getLast? with
  | none => vm
  | some frame =>
    { vm with exceptionHandlers := vm.exceptionHandlers ++
        [{ tryStart := frame.instructionPointer,
           tryEnd := 0,
           catchStart := catchIndex,
           finallyStart := finallyIndex.getD 0,
           exceptionVar := exceptionVar }] }

/-- `VirtualMachine::executeTryEnd`: set the most recently registered
handler's `tryEnd` to the current frame's instruction pointer. -/
def executeTryEnd (vm : VirtualMachine) : VirtualMachine :=
  match vm.callStack.getLast? with
  | none => vm
  | some frame =>
    match vm.exceptionHandlers.getLast? with
    | none => vm
    | some h =>
      { vm with exceptionHandlers :=
          vm.exceptionHandlers.dropLast ++
            [{ h with tryEnd := frame.instructionPointer }] }

/-! ### Association-map assignment lemma -/

theorem assocFind_setAssoc {κ β : Type} [DecidableEq κ]
    (l : List (κ × β)) (k k' : κ) (v : β) :
    assocFind k (setAssoc l k' v) =
      if k' = k then some v else assocFind k l := by
  induction l with
  | nil => simp [setAssoc, assocFind]
  | cons p rest ih =>
    obtain ⟨k₀, v₀⟩ := p
    by_cases h0 : k₀ = k'
    · subst h0
      simp only [setAssoc, if_pos rfl]
      by_cases hk : k₀ = k
      · subst hk
        simp [assocFind]
      · simp [assocFind, hk]
    · simp only [setAssoc, if_neg h0]
      by_cases hk : k₀ = k
      · subst hk
        have hk' : k' ≠ k₀ := fun h => h0 h.symm
        simp [assocFind, hk']
      · simp [assocFind, hk, ih]

/-! ### Claim C3 -/

/-- Declarations for the three-level chain: `Middle` overrides Root's
virtual method `m`; `Leaf` declares no methods. -/
def rootDecl : ClassDecl := ⟨"Root", "", [], [⟨"m", [], true⟩]⟩

def middleDecl : ClassDecl := ⟨"Middle", "Root", [], [⟨"m", [], true⟩]⟩

def leafDecl : ClassDecl := ⟨"Leaf", "Middle", [], []⟩

def chainDecls : List ClassDecl := [rootDecl, middleDecl, leafDecl]

def chainModule : IRModule := ⟨["Root.m", "Middle.m"]⟩

/-- C3, evaluated at the claim's own scenario: class construction succeeds,
`Leaf` resolves to the class-store record created in pass 2, and looking up
`m` on it returns NO descriptor — neither Middle's nor Root's — because the
effective method table (`vtable`) was built by the `ClassInstance`
constructor before any `addMethod` call and is therefore empty; the
same lookup fails even on `Middle` itself, whose own `m` sits only in
`methods` and, being virtual, is excluded by the fallback path of
`lookupMethod`. -/
theorem c3_resolve_returns_none :
    ∃ t, initializeClasses chainModule chainDecls = Except.ok t ∧
      assocFind "Leaf" t.classes = some 4 ∧
      (assocFind 4 t.store).map (fun c => lookupMethod c "m") = some none ∧
      (assocFind 4 t.store).map ClassInstance.vtable = some [] ∧
      assocFind "Middle" t.classes = some 3 ∧
      (assocFind 3 t.store).map (fun c => lookupMethod c "m") = some none :=
  ⟨_, rfl, rfl, rfl, rfl, rfl, rfl⟩

/-! ### Claim C7 -/

def cycleDeclA : ClassDecl := ⟨"A", "B", [], []⟩

def cycleDeclB : ClassDecl := ⟨"B", "A", [], []⟩

def cycleDecls : List ClassDecl := [cycleDeclA, cycleDeclB]

def emptyModule : IRModule := ⟨[]⟩

/-- C7 counterexample: the declarations `A extends B` and `B extends A`
form a superclass cycle, yet `initializeClasses` returns successfully — no
load-time error is raised and the runtime would start. -/
theorem c7_counterexample :
    ∃ t, initializeClasses emptyModule cycleDecls = Except.ok t :=
  ⟨_, rfl⟩

theorem initPass1_keys (decls : List ClassDecl) (n : String) :
    (assocFind n (initPass1 decls).classes).isSome = true →
    ∃ d ∈ decls, d.name = n := by
  have main : ∀ (l : List ClassDecl) (t : ClassTable),
      (assocFind n (l.foldl
        (fun t d =>
          { classes := setAssoc t.classes d.name t.nextId,
            store := t.store ++ [(t.nextId, mkClassInstance t.store d.name none)],
            nextId := t.nextId + 1 }) t).classes).isSome = true →
      (assocFind n t.classes).isSome = true ∨ ∃ d ∈ l, d.name = n := by
    intro l
    induction l with
    | nil => intro t h; exact Or.inl h
    | cons d rest ih =>
      intro t h
      rcases ih _ h with h' | ⟨d', hd', hn⟩
      · simp only [assocFind_setAssoc] at h'
        by_cases hdn : d.name = n
        · exact Or.inr ⟨d, List.mem_cons_self _ _, hdn⟩
        · rw [if_neg hdn] at h'
          exact Or.inl h'
      · exact Or.inr ⟨d', List.mem_cons_of_mem _ hd', hn⟩
  intro hsome
  rcases main decls ⟨[], [], 0⟩ hsome with h' | h'
  · simp [assocFind] at h'
  · exact h'

theorem except_bind_ok {ε α β : Type} (a : α) (f : α → Except ε β) :
    (Except.ok a >>= f) = f a := rfl

theorem except_bind_error {ε α β : Type} (e : ε) (f : α → Except ε β) :
    ((Except.error e : Except ε α) >>= f) = Except.error e := rfl

theorem initAddMethodsAux_classes (module : IRModule) (d : ClassDecl)
    (cid : Nat) :
    ∀ (ms : List MethodDecl) (t t' : ClassTable),
      ms.foldlM
        (fun t m =>
          match module.getFunction (d.name ++ "." ++ m.name) with
          | none =>
            Except.error ("Method implementation not found: " ++ m.name)
          | some impl =>
            Except.ok (updateStore t cid
              (fun c => c.addMethod m.name
                ⟨m.name, impl, cid, m.parameterNames, m.isVirtual⟩)))
        t = Except.ok t' →
      t'.classes = t.classes := by
  intro ms
  induction ms with
  | nil =>
    intro t t' h
    simp only [List.foldlM_nil] at h
    cases h
    rfl
  | cons m rest ih =>
    intro t t' h
    simp only [List.foldlM_cons] at h
    cases hf : module.getFunction (d.name ++ "." ++ m.name) with
    | none =>
      simp only [hf, except_bind_error] at h
      exact Except.noConfusion h
    | some impl =>
      simp only [hf, except_bind_ok] at h
      rw [ih _ _ h]
      rfl

theorem initAddMethods_classes {module : IRModule} {d : ClassDecl} {cid : Nat}
    {t t' : ClassTable} (h : initAddMethods module d cid t = Except.ok t') :
    t'.classes = t.classes :=
  initAddMethodsAux_classes module d cid d.methods t t' h

theorem initPass2Step_keys {module : IRModule} {t t' : ClassTable}
    {d : ClassDecl} (h : initPass2Step module t d = Except.ok t') (n : String) :
    (assocFind n t'.classes).isSome = true →
    (assocFind n t.classes).isSome = true ∨ n = d.name := by
  unfold initPass2Step at h
  split at h
  · exact Except.noConfusion h
  · rename_i cid0 hc
    split at h
    · exact Except.noConfusion h
    · rename_i p t1 cid hls
      have hcl := initAddMethods_classes h
      intro hn
      rw [hcl] at hn
      simp only [updateStore] at hn
      unfold initLinkSuper at hls
      by_cases hsup : d.superClassName ≠ ""
      · rw [if_pos hsup] at hls
        cases hs : assocFind d.superClassName t.classes with
        | none =>
          rw [hs] at hls
          exact Except.noConfusion hls
        | some sid =>
          rw [hs] at hls
          have hinj := Except.ok.inj hls
          rw [Prod.mk.injEq] at hinj
          obtain ⟨hfst, hsnd⟩ := hinj
          rw [← hfst] at hn
          simp only [assocFind_setAssoc] at hn
          by_cases hdn : d.name = n
          · exact Or.inr hdn.symm
          · rw [if_neg hdn] at hn
            exact Or.inl hn
      · rw [if_neg hsup] at hls
        have hinj := Except.ok.inj hls
        rw [Prod.mk.injEq] at hinj
        obtain ⟨hfst, hsnd⟩ := hinj
        rw [← hfst] at hn
        exact Or.inl hn

theorem initPass2Step_error_of_undeclared {module : IRModule} {t : ClassTable}
    {d : ClassDecl} (hsup : d.superClassName ≠ "")
    (hkey : assocFind d.superClassName t.classes = none) :
    ∃ e, initPass2Step module t d = Except.error e := by
  unfold initPass2Step
  cases hc : assocFind d.name t.classes with
  | none => exact ⟨_, rfl⟩
  | some cid0 =>
    have hls : initLinkSuper t d cid0
        = Except.error ("Super class not found: " ++ d.superClassName) := by
      unfold initLinkSuper
      rw [if_pos hsup, hkey]
    refine ⟨"Super class not found: " ++ d.superClassName, ?_⟩
    show (match initLinkSuper t d cid0 with
      | Except.error e => Except.error e
      | Except.ok (t1, cid) =>
        initAddMethods module d cid
          (updateStore t1 cid
            (fun c => d.fields.foldl (fun c nm => c.addField nm) c)))
      = Except.error ("Super class not found: " ++ d.superClassName)
    rw [hls]

/-- C7 amended: class-model construction raises a load-time error when a
declaration names an undeclared superclass, but there is no cycle
detection: cyclic superclass declarations construct successfully
(`initializeClasses` returns `ok` on `A extends B, B extends A`), so
successful construction does not imply an acyclic chain. -/
theorem c7_amended_load_errors :
    (∀ (module : IRModule) (decls : List ClassDecl) (d : ClassDecl),
      d ∈ decls → d.superClassName ≠ "" →
      (∀ d' ∈ decls, d'.name ≠ d.superClassName) →
      ∃ e, initializeClasses module decls = Except.error e) ∧
    (∃ t, initializeClasses emptyModule cycleDecls = Except.ok t) := by
  constructor
  · intro module decls d hd hsup hundecl
    have aux : ∀ (l : List ClassDecl) (t : ClassTable),
        (∀ x ∈ l, x ∈ decls) → d ∈ l →
        (∀ n, (assocFind n t.classes).isSome = true →
          ∃ d' ∈ decls, d'.name = n) →
        ∃ e, l.foldlM (initPass2Step module) t = Except.error e := by
      intro l
      induction l with
      | nil => intro t _ hd'; cases hd'
      | cons a rest ih =>
        intro t hsub hdl hinv
        by_cases had : a = d
        · subst had
          have hkey : assocFind a.superClassName t.classes = none := by
            cases hk : assocFind a.superClassName t.classes with
            | none => rfl
            | some sid =>
              obtain ⟨d', hd', hn⟩ := hinv a.superClassName (by simp [hk])
              exact absurd hn (hundecl d' hd')
          obtain ⟨e, he⟩ := @initPass2Step_error_of_undeclared module t a hsup hkey
          refine ⟨e, ?_⟩
          simp only [List.foldlM_cons, he, except_bind_error]
        · cases hstep : initPass2Step module t a with
          | error e =>
            refine ⟨e, ?_⟩
            simp only [List.foldlM_cons, hstep, except_bind_error]
          | ok t' =>
            have hinv' : ∀ n, (assocFind n t'.classes).isSome = true →
                ∃ d' ∈ decls, d'.name = n := by
              intro n hn
              rcases initPass2Step_keys hstep n hn with h | h
              · exact hinv n h
              · exact ⟨a, hsub a (List.mem_cons_self _ _), h.symm⟩
            obtain ⟨e, he⟩ := ih t'
              (fun x hx => hsub x (List.mem_cons_of_mem _ hx))
              (by rcases List.mem_cons.1 hdl with h | h
                  · exact absurd h.symm had
                  · exact h)
              hinv'
            refine ⟨e, ?_⟩
            simp only [List.foldlM_cons, hstep, except_bind_ok, he]
    exact aux decls (initPass1 decls) (fun x hx => hx) hd
      (fun n hn => initPass1_keys decls n hn)
  · exact ⟨_, rfl⟩

def missingSuperDecl : ClassDecl := ⟨"C", "Missing", [], []⟩

theorem c7_amended_load_errors_witness :
    missingSuperDecl ∈ [missingSuperDecl] ∧
    missingSuperDecl.superClassName ≠ "" ∧
    (∀ d' ∈ [missingSuperDecl], d'.name ≠ missingSuperDecl.superClassName) ∧
    ∃ e, initializeClasses emptyModule [missingSuperDecl] = Except.error e :=
  ⟨List.mem_cons_self _ _, by decide, by decide,
    c7_amended_load_errors.1 emptyModule [missingSuperDecl] missingSuperDecl
      (List.mem_cons_self _ _) (by decide) (by decide)⟩

/-! ### Claim C1 -/

def c1Frame : StackFrame := ⟨"f", [("p", RuntimeValue.objectV 0)], 3⟩

def c1VM : VirtualMachine :=
  { operandStack := [],
    callStack := [c1Frame],
    memoryManager :=
      { allocatedObjects := [(0, ⟨0, [], false⟩)],
        rootReferences := [],
        totalAllocated := 1,
        totalCollected := 0,
        collectionCount := 0 },
    classes := [],
    classStore := [],
    exceptionHandlers := [],
    currentException := none }

/-- C1 counterexample: object 0 is referenced only by the local `p` of the
single active call frame; ONE `collect()` while that frame is active
removes the object from the live-object table — refuting "never removes
... any number of times" at the very first collection — because pushing a
frame registers no roots (`rootReferences` is empty; `executeMethodCall`
never calls `addRootReference`, see `c1_locals_are_not_roots`). -/
theorem c1_counterexample :
    (vmCollect c1VM).memoryManager.allocatedObjects = [] ∧
    (vmCollect c1VM).callStack = [c1Frame] ∧
    c1Frame.getLocal "p" = RuntimeValue.objectV 0 := by
  refine ⟨by decide, rfl, by decide⟩

/-- C1 amended: frame locals are not GC roots.  `executeMethodCall` pushes
the new frame leaving the `MemoryManager` — in particular
`rootReferences` — unchanged, and consequently an object in the table that
is not reachable from any registered root slot is removed by `collect()`
even while a frame whose local variable references it is on the execution
stack. -/
theorem c1_locals_are_not_roots :
    (∀ (vm : VirtualMachine) (methodName : String) (argCount : Nat)
      (vm' : VirtualMachine),
      executeMethodCall vm methodName argCount = CallResult.ok vm' →
      vm'.memoryManager = vm.memoryManager) ∧
    (∀ (vm : VirtualMachine) (y : Nat),
      (tableIds vm.memoryManager.allocatedObjects).Nodup →
      y ∈ tableIds vm.memoryManager.allocatedObjects →
      ¬ RootReachable vm.memoryManager y →
      y ∉ tableIds (vmCollect vm).memoryManager.allocatedObjects) := by
  constructor
  · intro vm methodName argCount vm' h
    unfold executeMethodCall at h
    split at h
    · exact CallResult.noConfusion h
    · dsimp only at h
      split at h
      · split at h
        · exact CallResult.noConfusion h
        · split at h
          · exact CallResult.noConfusion h
          · split at h
            · exact CallResult.noConfusion h
            · have := CallResult.ok.inj h
              rw [← this]
      · exact CallResult.noConfusion h
  · intro vm y hnd hy hreach hmem
    simp only [vmCollect] at hmem
    rw [collect_mem_iff vm.memoryManager hnd y] at hmem
    exact hreach hmem.2

def c1Method : MethodInstance := ⟨"go", "Obj.go", 0, [], false⟩

def c1Class : ClassInstance :=
  { name := "Obj", superClass := none,
    methods := [("go", c1Method)], fieldNames := [], vtable := [] }

def c1CallVM : VirtualMachine :=
  { operandStack := [RuntimeValue.objectV 0],
    callStack := [],
    memoryManager :=
      { allocatedObjects := [(0, ⟨0, [], false⟩)],
        rootReferences := [],
        totalAllocated := 1,
        totalCollected := 0,
        collectionCount := 0 },
    classes := [("Obj", 0)],
    classStore := [(0, c1Class)],
    exceptionHandlers := [],
    currentException := none }

def c1CallResultVM : VirtualMachine :=
  { c1CallVM with
    operandStack := [],
    callStack := [⟨"Obj.go", [("this", RuntimeValue.objectV 0)], 0⟩] }

theorem c1_locals_are_not_roots_witness :
    (executeMethodCall c1CallVM "go" 0 = CallResult.ok c1CallResultVM ∧
      c1CallResultVM.memoryManager = c1CallVM.memoryManager) ∧
    ((tableIds c1VM.memoryManager.allocatedObjects).Nodup ∧
      0 ∈ tableIds c1VM.memoryManager.allocatedObjects ∧
      ¬ RootReachable c1VM.memoryManager 0 ∧
      0 ∉ tableIds (vmCollect c1VM).memoryManager.allocatedObjects) := by
  have hnr : ¬ RootReachable c1VM.memoryManager 0 := by
    rintro ⟨id, hid, _⟩
    have hroots : c1VM.memoryManager.rootReferences = [] := rfl
    rw [hroots] at hid
    simp at hid
  exact ⟨⟨by decide,
      c1_locals_are_not_roots.1 c1CallVM "go" 0 c1CallResultVM (by decide)⟩,
    by decide, by decide, hnr,
    c1_locals_are_not_roots.2 c1VM 0 (by decide) (by decide) hnr⟩

/-! ### Claim C4 -/

def c4Class : ClassInstance :=
  { name := "Widget", superClass := none, methods := [], fieldNames := [],
    vtable := [] }

def c4VM : VirtualMachine :=
  { operandStack := [RuntimeValue.objectV 0],
    callStack := [⟨"main", [], 7⟩],
    memoryManager :=
      { allocatedObjects := [(0, ⟨0, [], false⟩)],
        rootReferences := [],
        totalAllocated := 1,
        totalCollected := 0,
        collectionCount := 0 },
    classes := [("Widget", 0)],
    classStore := [(0, c4Class)],
    exceptionHandlers := [⟨5, 10, 20, 0, "e"⟩],
    currentException := none }

/-- C4 counterexample: calling the undefined method `frob` on a `Widget`
receiver yields the host-level error (`throw std::runtime_error`) —
`executeMethodCall` returns `hostError` and no VM state — even though the
current frame's instruction pointer (7) lies inside a registered try-region
(5..10) whose catch would intercept a BLang exception; `throwException` is
never invoked, the in-flight exception stays absent, so the failure does
not flow through the `ExceptionController` and a user `try`/`catch` cannot
intercept it. -/
theorem c4_counterexample :
    executeMethodCall c4VM "frob" 0
      = CallResult.hostError ("Method not found: frob") ∧
    (findHandler c4VM.exceptionHandlers 7).isSome = true ∧
    c4VM.currentException = none :=
  ⟨by decide, by decide, rfl⟩

/-- C4 amended: when method resolution fails on the receiver's class,
`executeMethodCall` raises the host-level C++ error
"Method not found: name" (a `std::runtime_error` that propagates to the
embedding host program; part_005's driver catches it and exits 1).  The
`ExceptionController` (`throwException`) is not engaged and no handler
range is consulted, so the failure is not interceptable by BLang
`try`/`catch`. -/
theorem c4_method_not_found_host_error (vm : VirtualMachine)
    (methodName : String) (argCount : Nat) (oid : Nat)
    (obj : ObjectInstance) (classInst : ClassInstance)
    (hlen : argCount + 1 ≤ vm.operandStack.length)
    (hrecv : (vm.operandStack.drop argCount).headD RuntimeValue.nullV
      = RuntimeValue.objectV oid)
    (hobj : assocFind oid vm.memoryManager.allocatedObjects = some obj)
    (hcls : assocFind obj.classId vm.classStore = some classInst)
    (hmiss : lookupMethod classInst methodName = none) :
    executeMethodCall vm methodName argCount
      = CallResult.hostError ("Method not found: " ++ methodName) := by
  unfold executeMethodCall
  rw [if_neg (by omega)]
  simp only [hrecv, hobj, hcls, hmiss]

theorem c4_method_not_found_host_error_witness :
    (0 + 1 ≤ c4VM.operandStack.length ∧
      (c4VM.operandStack.drop 0).headD RuntimeValue.nullV
        = RuntimeValue.objectV 0 ∧
      assocFind 0 c4VM.memoryManager.allocatedObjects
        = some ⟨0, [], false⟩ ∧
      assocFind (0 : Nat) c4VM.classStore = some c4Class ∧
      lookupMethod c4Class "frob" = none) ∧
    executeMethodCall c4VM "frob" 0
      = CallResult.hostError ("Method not found: " ++ "frob") :=
  ⟨⟨by decide, by decide, by decide, by decide, by decide⟩,
    c4_method_not_found_host_error c4VM "frob" 0 0 ⟨0, [], false⟩ c4Class
      (by decide) (by decide) (by decide) (by decide) (by decide)⟩

/-! ### Claim C6 -/

def c6Heap : MemoryManager :=
  { allocatedObjects := [(0, ⟨0, [], false⟩)],
    rootReferences := [],
    totalAllocated := 2 * 1024 * 1024,
    totalCollected := 0,
    collectionCount := 0 }

/-- C6 counterexample: the byte threshold is already exceeded, so the
`allocate` call inserts the fresh object (handle 1) and then runs a
collection inside the call; no registered root references the fresh
object, so the sweep removes it, and the handle returned by the very call
that created it refers to no entry of the live-object table. -/
theorem c6_counterexample :
    (allocateObject c6Heap 0 1).2 = 1 ∧
    (allocateObject c6Heap 0 1).1.allocatedObjects = [] :=
  ⟨rfl, by decide⟩

/-- C6 amended: the handle returned by `allocate` refers to a live table
entry when the call triggers no collection; when the allocation-pressure
threshold does trigger one during the call, the new object survives only
if it is reachable from a registered root — a fresh object referenced by
no root is swept from the table before `allocate` returns. -/
theorem c6_allocate_presence (mm : MemoryManager) (classId newId : Nat)
    (hnd : (tableIds mm.allocatedObjects).Nodup)
    (hfresh : newId ∉ tableIds mm.allocatedObjects) :
    (shouldCollectGarbage { mm with
        allocatedObjects :=
          mm.allocatedObjects ++ [(newId, ⟨classId, [], false⟩)],
        totalAllocated := mm.totalAllocated + objectInstanceSize } = false →
      newId ∈ tableIds (allocateObject mm classId newId).1.allocatedObjects) ∧
    (shouldCollectGarbage { mm with
        allocatedObjects :=
          mm.allocatedObjects ++ [(newId, ⟨classId, [], false⟩)],
        totalAllocated := mm.totalAllocated + objectInstanceSize } = true →
      ¬ RootReachable { mm with
          allocatedObjects :=
            mm.allocatedObjects ++ [(newId, ⟨classId, [], false⟩)],
          totalAllocated := mm.totalAllocated + objectInstanceSize } newId →
      newId ∉ tableIds (allocateObject mm classId newId).1.allocatedObjects) := by
  have hnd1 : (tableIds (mm.allocatedObjects ++
      [(newId, (⟨classId, [], false⟩ : ObjectInstance))])).Nodup := by
    rw [tableIds, List.map_append]
    refine List.Nodup.append hnd (List.nodup_singleton _) ?_
    intro a ha hb
    rw [List.map_singleton] at hb
    rcases List.mem_singleton.1 hb with rfl
    exact hfresh ha
  constructor
  · intro hno
    unfold allocateObject
    dsimp only
    rw [hno, if_neg Bool.false_ne_true]
    rw [tableIds, List.map_append]
    exact List.mem_append.2 (Or.inr (by simp))
  · intro hyes hreach hmem
    unfold allocateObject at hmem
    dsimp only at hmem
    rw [hyes, if_pos rfl] at hmem
    rw [collect_mem_iff _ hnd1 newId] at hmem
    exact hreach hmem.2

/-! ### Claim C5 -/

theorem throwLoop_no_handlers (execFin : VirtualMachine → VirtualMachine) :
    ∀ (fuel : Nat) (vm : VirtualMachine) (exc : ExceptionRecord),
      vm.exceptionHandlers = [] →
      vm.callStack ≠ [] →
      vm.callStack.length ≤ fuel →
      vm.currentException = some exc →
      throwExceptionLoop execFin fuel vm exc =
        ({ vm with callStack := [] },
          ThrowOutcome.uncaught exc.type exc.message) := by
  intro fuel
  induction fuel with
  | zero =>
    intro vm exc hh hne hlen _
    have hnil : vm.callStack = [] := List.length_eq_zero.1 (Nat.le_zero.1 hlen)
    exact absurd hnil hne
  | succ n ih =>
    intro vm exc hh hne hlen hcur
    obtain ⟨frame, hlast⟩ : ∃ f, vm.callStack.getLast? = some f := by
      cases hcs : vm.callStack.getLast? with
      | none => exact absurd (List.getLast?_eq_none_iff.1 hcs) hne
      | some f => exact ⟨f, rfl⟩
    have hfh : ∀ p, findHandler vm.exceptionHandlers p = none := by
      intro p
      rw [hh]
      rfl
    simp only [throwExceptionLoop, hlast, hfh]
    rw [hcur]
    simp only [Option.getD_some]
    by_cases hone : vm.callStack.dropLast = []
    · rw [hone]
      simp only [List.isEmpty_nil, if_true]
    · rw [if_neg (by simp [List.isEmpty_iff, hone])]
      have hrec := ih ⟨vm.operandStack, vm.callStack.dropLast, vm.memoryManager,
          vm.classes, vm.classStore, vm.exceptionHandlers, some exc⟩ exc hh hone
        (by simp only [List.length_dropLast]; omega) rfl
      rw [hrec]

/-- C5 amended: for a throw with no registered handler ranges anywhere,
unwinding pops every frame and the uncaught report (the
`Uncaught exception: type: message` line on stderr, the payload of
`ThrowOutcome.uncaught`) carries the exception's ORIGINAL type and message,
with the in-flight record still holding the original data — and
`throwException` then returns control to its caller with the emptied call
stack.  It does not terminate the program and sets no exit status: no such
mechanism exists in the runtime (part_005's driver would subsequently print
its success message and return 0, since no C++ exception escapes). -/
theorem c5_uncaught_reports_and_returns
    (execFin : VirtualMachine → VirtualMachine) (vm : VirtualMachine)
    (type message : String) (data : Option Nat)
    (hh : vm.exceptionHandlers = []) (hne : vm.callStack ≠ []) :
    throwException execFin vm type message data =
      ({ vm with
          callStack := [],
          currentException := some ⟨type, message, data⟩ },
        ThrowOutcome.uncaught type message) := by
  unfold throwException
  exact throwLoop_no_handlers execFin (vm.callStack.length + 1)
    { vm with currentException := some ⟨type, message, data⟩ }
    ⟨type, message, data⟩ hh hne (by simp) rfl

def c5VM : VirtualMachine :=
  { operandStack := [],
    callStack := [⟨"main", [], 4⟩, ⟨"helper", [], 9⟩],
    memoryManager := ⟨[], [], 0, 0, 0⟩,
    classes := [],
    classStore := [],
    exceptionHandlers := [],
    currentException := none }

/-- C5 counterexample: a throw with no matching handler on a two-frame
stack unwinds both frames and reports the original "Err"/"boom" — but
`throwException` then simply returns a usable VM state to its caller
(outcome `uncaught`, call stack empty, exception record intact).  The
runtime contains no path that terminates the process or produces a
non-zero exit status for an uncaught BLang exception, contradicting the
claim's "program execution terminates with a non-zero status" (the
part_005 driver would print its success line and exit 0). -/
theorem c5_counterexample :
    throwException id c5VM "Err" "boom" none =
      ({ c5VM with
          callStack := [],
          currentException := some ⟨"Err", "boom", none⟩ },
        ThrowOutcome.uncaught "Err" "boom") := by
  decide

theorem c5_uncaught_reports_and_returns_witness :
    (c5VM.exceptionHandlers = [] ∧ c5VM.callStack ≠ []) ∧
    throwException id c5VM "E2" "m2" none =
      ({ c5VM with
          callStack := [],
          currentException := some ⟨"E2", "m2", none⟩ },
        ThrowOutcome.uncaught "E2" "m2") :=
  ⟨⟨rfl, by decide⟩,
    c5_uncaught_reports_and_returns id c5VM "E2" "m2" none rfl (by decide)⟩

/-! ### Claim C10 -/

theorem mem_of_getLast?_eq_some {α : Type} {l : List α} {a : α}
    (h : l.getLast? = some a) : a ∈ l := by
  rw [List.getLast?_eq_some_iff] at h
  obtain ⟨ys, rfl⟩ := h
  simp

/-- During an unwind in which every finally offset consulted is 0 (no
finally body runs), the VM-wide handler list is never modified — neither a
`Handled` transfer nor any number of frame pops removes a handler. -/
theorem throwLoop_handlers_unchanged
    (execFin : VirtualMachine → VirtualMachine) :
    ∀ (fuel : Nat) (vm : VirtualMachine) (exc : ExceptionRecord),
      vm.callStack.length < fuel →
      (∀ f ∈ vm.callStack, ∀ h2, findHandler vm.exceptionHandlers
        (f.instructionPointer - 1) = some h2 → h2.finallyStart = 0) →
      (throwExceptionLoop execFin fuel vm exc).1.exceptionHandlers
        = vm.exceptionHandlers := by
  intro fuel
  induction fuel with
  | zero =>
    intro vm exc hlen _
    omega
  | succ n ih =>
    intro vm exc hlen hfin
    cases hlast : vm.callStack.getLast? with
    | none => simp [throwExceptionLoop, hlast]
    | some frame =>
      have hmem : frame ∈ vm.callStack := mem_of_getLast?_eq_some hlast
      have hpos : 1 ≤ vm.callStack.length := by
        cases hcs : vm.callStack with
        | nil => rw [hcs] at hlast; cases hlast
        | cons a l => simp [hcs]
      cases hfh : findHandler vm.exceptionHandlers frame.instructionPointer with
      | some h =>
        simp [throwExceptionLoop, hlast, hfh]
      | none =>
        have hnofin : (match findHandler vm.exceptionHandlers
            (frame.instructionPointer - 1) with
          | some h2 =>
            if h2.finallyStart ≠ 0 then
              execFin { vm with callStack :=
                vm.callStack.dropLast ++
                  [{ frame with instructionPointer := h2.finallyStart }] }
            else vm
          | none => vm) = vm := by
          cases hfh2 : findHandler vm.exceptionHandlers
              (frame.instructionPointer - 1) with
          | none => rfl
          | some h2 =>
            have h20 : h2.finallyStart = 0 := hfin frame hmem h2 hfh2
            simp [h20]
        simp only [throwExceptionLoop, hlast, hfh, hnofin]
        by_cases hone : vm.callStack.dropLast = []
        · rw [hone]
          simp only [List.isEmpty_nil, if_true]
        · rw [if_neg (by simp [List.isEmpty_iff, hone])]
          have hrec := ih ⟨vm.operandStack, vm.callStack.dropLast,
              vm.memoryManager, vm.classes, vm.classStore,
              vm.exceptionHandlers, vm.currentException⟩
            (vm.currentException.getD exc)
            (by simp only [List.length_dropLast]; omega)
            (by
              intro f hf h2 hh2
              exact hfin f ((List.dropLast_sublist _).mem hf) h2 hh2)
          exact hrec

/-- C10: handler ranges form one VM-wide list, not scoped to frames and not
removed on frame pop.  (i) `executeTryBegin` appends to the single list a
record carrying only instruction offsets and the catch variable name — no
frame or function identity; (ii) `findHandler` judges an instruction
position against every registered range: it returns `none` exactly when no
registered range contains the position, and a hit is a member range
containing it; (iii) during unwinding, the innermost frame is judged solely
by `findHandler` on its instruction pointer — any registered range matches,
including one registered while a different frame's function was executing
(no hypothesis links the handler to the frame's function) — and control
transfers into that range's catch; (iv) an unwind in which no finally body
runs leaves `exceptionHandlers` exactly as it was, however many frames are
popped. -/
theorem c10_handlers_vm_wide :
    (∀ (vm : VirtualMachine) (c : Nat) (fin : Option Nat) (var : String)
      (rest : List StackFrame) (frame : StackFrame),
      vm.callStack = rest ++ [frame] →
      (executeTryBegin vm c fin var).exceptionHandlers
        = vm.exceptionHandlers ++
          [⟨frame.instructionPointer, 0, c, fin.getD 0, var⟩]) ∧
    (∀ (handlers : List ExceptionHandler) (pos : Nat),
      (findHandler handlers pos = none ↔
        ∀ h ∈ handlers, ¬(h.tryStart ≤ pos ∧ pos < h.tryEnd)) ∧
      (∀ h, findHandler handlers pos = some h →
        h ∈ handlers ∧ h.tryStart ≤ pos ∧ pos < h.tryEnd)) ∧
    (∀ (execFin : VirtualMachine → VirtualMachine) (vm : VirtualMachine)
      (type message : String) (data : Option Nat)
      (rest : List StackFrame) (frame : StackFrame) (h : ExceptionHandler),
      vm.callStack = rest ++ [frame] →
      findHandler vm.exceptionHandlers frame.instructionPointer = some h →
      throwException execFin vm type message data =
        ({ vm with
            callStack := rest ++
              [({ frame with instructionPointer := h.catchStart }).setLocal
                h.exceptionVar (exceptionDataValue data)],
            currentException := some ⟨type, message, data⟩ },
          ThrowOutcome.handled)) ∧
    (∀ (execFin : VirtualMachine → VirtualMachine) (vm : VirtualMachine)
      (type message : String) (data : Option Nat),
      (∀ f ∈ vm.callStack, ∀ h2, findHandler vm.exceptionHandlers
        (f.instructionPointer - 1) = some h2 → h2.finallyStart = 0) →
      (throwException execFin vm type message data).1.exceptionHandlers
        = vm.exceptionHandlers) := by
  refine ⟨?_, ?_, ?_, ?_⟩
  · intro vm c fin var rest frame hcs
    unfold executeTryBegin
    rw [hcs, List.getLast?_concat]
  · intro handlers pos
    constructor
    · unfold findHandler
      rw [List.find?_eq_none]
      constructor
      · intro hall h hmem hrange
        have := hall h hmem
        simp only [Bool.and_eq_true, decide_eq_true_eq, ge_iff_le] at this
        exact this ⟨hrange.1, hrange.2⟩
      · intro hall h hmem
        simp only [Bool.and_eq_true, decide_eq_true_eq, ge_iff_le]
        intro hrange
        exact hall h hmem ⟨hrange.1, hrange.2⟩
    · intro h hfind
      have hmem := List.mem_of_find?_eq_some hfind
      have hp := List.find?_some hfind
      simp only [Bool.and_eq_true, decide_eq_true_eq, ge_iff_le] at hp
      exact ⟨hmem, hp.1, hp.2⟩
  · intro execFin vm type message data rest frame h hcs hfind
    unfold throwException
    have hlast : ({ vm with
        currentException :=
          some ⟨type, message, data⟩ } : VirtualMachine).callStack.getLast?
        = some frame := by
      show vm.callStack.getLast? = some frame
      rw [hcs, List.getLast?_concat]
    simp only [throwExceptionLoop, hlast, hfind]
    show ({ vm with
        currentException := some ⟨type, message, data⟩,
        callStack := vm.callStack.dropLast ++
          [({ frame with instructionPointer := h.catchStart }).setLocal
            h.exceptionVar (exceptionDataValue data)] },
      ThrowOutcome.handled) = _
    rw [hcs, List.dropLast_concat]
  · intro execFin vm type message data hfin
    unfold throwException
    exact throwLoop_handlers_unchanged execFin (vm.callStack.length + 1)
      ⟨vm.operandStack, vm.callStack, vm.memoryManager, vm.classes,
        vm.classStore, vm.exceptionHandlers,
        some ⟨type, message, data⟩⟩
      ⟨type, message, data⟩ (by simp) hfin

def c10Handler : ExceptionHandler := ⟨10, 20, 33, 0, "ex"⟩

def c10FrameA : StackFrame := ⟨"funA", [], 2⟩

def c10FrameB : StackFrame := ⟨"funB", [], 15⟩

/-- Two frames of different functions; the single registered handler range
(10..20) covers funB's instruction pointer 15. -/
def c10VM : VirtualMachine :=
  { operandStack := [],
    callStack := [c10FrameA, c10FrameB],
    memoryManager := ⟨[], [], 0, 0, 0⟩,
    classes := [],
    classStore := [],
    exceptionHandlers := [c10Handler],
    currentException := none }

/-- Same VM but with the innermost instruction pointer outside every
registered range, so the unwind pops both frames. -/
def c10VMnoCatch : VirtualMachine :=
  { c10VM with callStack := [c10FrameA, ⟨"funB", [], 25⟩] }

theorem c10_handlers_vm_wide_witness :
    (c10VM.callStack = [c10FrameA] ++ [c10FrameB] ∧
      (executeTryBegin c10VM 33 none "ex").exceptionHandlers
        = c10VM.exceptionHandlers ++
          [⟨c10FrameB.instructionPointer, 0, 33, 0, "ex"⟩]) ∧
    (findHandler c10VM.exceptionHandlers
        c10FrameB.instructionPointer = some c10Handler ∧
      (c10Handler ∈ c10VM.exceptionHandlers ∧
        c10Handler.tryStart ≤ c10FrameB.instructionPointer ∧
        c10FrameB.instructionPointer < c10Handler.tryEnd)) ∧
    (throwException id c10VM "E" "m" none =
      ({ c10VM with
          callStack := [c10FrameA] ++
            [({ c10FrameB with
                instructionPointer := c10Handler.catchStart }).setLocal
              c10Handler.exceptionVar (exceptionDataValue none)],
          currentException := some ⟨"E", "m", none⟩ },
        ThrowOutcome.handled)) ∧
    ((∀ f ∈ c10VMnoCatch.callStack, ∀ h2,
        findHandler c10VMnoCatch.exceptionHandlers
          (f.instructionPointer - 1) = some h2 → h2.finallyStart = 0) ∧
      (throwException id c10VMnoCatch "E" "m" none).1.exceptionHandlers
        = c10VMnoCatch.exceptionHandlers) := by
  have hfin : ∀ f ∈ c10VMnoCatch.callStack, ∀ h2,
      findHandler c10VMnoCatch.exceptionHandlers
        (f.instructionPointer - 1) = some h2 → h2.finallyStart = 0 := by
    intro f hf h2 hh2
    have hstack : c10VMnoCatch.callStack
        = [c10FrameA, ⟨"funB", [], 25⟩] := rfl
    rw [hstack] at hf
    rcases List.mem_cons.1 hf with rfl | hf
    · rw [show findHandler c10VMnoCatch.exceptionHandlers
          (c10FrameA.instructionPointer - 1) = none from by decide] at hh2
      cases hh2
    · rcases List.mem_cons.1 hf with rfl | hf
      · have h24 : (⟨"funB", [], 25⟩ : StackFrame).instructionPointer - 1
            = 24 := rfl
        rw [h24] at hh2
        rw [show findHandler c10VMnoCatch.exceptionHandlers
            ((24 : Nat)) = none from by decide] at hh2
        cases hh2
      · cases hf
  refine ⟨⟨rfl, c10_handlers_vm_wide.1 c10VM 33 none "ex" [c10FrameA]
      c10FrameB rfl⟩,
    ⟨by decide, (c10_handlers_vm_wide.2.1 c10VM.exceptionHandlers
      c10FrameB.instructionPointer).2 c10Handler (by decide)⟩,
    c10_handlers_vm_wide.2.2.1 id c10VM "E" "m" none [c10FrameA] c10FrameB
      c10Handler rfl (by decide),
    hfin,
    c10_handlers_vm_wide.2.2.2 id c10VMnoCatch "E" "m" none hfin⟩

/-! ### Claim C8 -/

theorem getLocal_setLocal_same (f : StackFrame) (nm : String)
    (v : RuntimeValue) : (f.setLocal nm v).getLocal nm = v := by
  simp [StackFrame.getLocal, StackFrame.setLocal, assocFind_setAssoc]

theorem getLocal_setLocal_ne (f : StackFrame) {nm q : String}
    (v : RuntimeValue) (h : nm ≠ q) :
    (f.setLocal nm v).getLocal q = f.getLocal q := by
  simp [StackFrame.getLocal, StackFrame.setLocal, assocFind_setAssoc, h]

theorem getLocal_bind_notMem :
    ∀ (l : List (String × RuntimeValue)) (f : StackFrame) (q : String),
      (∀ p ∈ l, p.1 ≠ q) →
      (l.foldl (fun f p => f.setLocal p.1 p.2) f).getLocal q
        = f.getLocal q := by
  intro l
  induction l with
  | nil => intro f q _; rfl
  | cons p rest ih =>
    intro f q hq
    simp only [List.foldl_cons]
    rw [ih _ q (fun p' hp' => hq p' (List.mem_cons_of_mem _ hp'))]
    exact getLocal_setLocal_ne f p.2 (hq p (List.mem_cons_self _ _))

/-- The parameter-binding loop of `executeMethodCall`
(`for i < min(paramNames.size, args.size): setLocal(paramNames[i],
args[i])`) read back positionally: within the zipped range the i-th
parameter name holds the i-th argument, beyond it the frame is untouched. -/
theorem getLocal_bind_zip :
    ∀ (ps : List String) (args : List RuntimeValue) (f : StackFrame),
      ps.Nodup →
      ∀ i, i < ps.length →
        ((ps.zip args).foldl (fun f p => f.setLocal p.1 p.2) f).getLocal
          (ps.getD i "")
          = if i < args.length then args.getD i RuntimeValue.nullV
            else f.getLocal (ps.getD i "") := by
  intro ps
  induction ps with
  | nil =>
    intro args f _ i hi
    simp at hi
  | cons p ps ih =>
    intro args f hnd i hi
    cases args with
    | nil =>
      rw [List.zip_nil_right]
      rw [if_neg (by simp)]
      rfl
    | cons a args =>
      simp only [List.zip_cons_cons, List.foldl_cons]
      cases i with
      | zero =>
        simp only [List.getD_cons_zero]
        rw [getLocal_bind_notMem _ _ p ?hne]
        case hne =>
          intro q hq heq
          have hq1 := (List.of_mem_zip hq).1
          rw [heq] at hq1
          exact (List.nodup_cons.1 hnd).1 hq1
        rw [getLocal_setLocal_same]
        rw [if_pos (by simp)]
      | succ i =>
        have hrec := ih args (f.setLocal p a) (List.nodup_cons.1 hnd).2 i
          (by simpa using hi)
        simp only [List.getD_cons_succ]
        rw [hrec]
        by_cases hia : i < args.length
        · rw [if_pos hia, if_pos (by simpa using hia)]
        · rw [if_neg hia, if_neg (by simpa using hia)]
          have hip : i < ps.length := by simpa using hi

          refine getLocal_setLocal_ne f a ?_
          intro heq
          have hmem : ps.getD i "" ∈ ps := by
            rw [List.getD_eq_getElem ps "" hip]
            exact List.getElem_mem hip
          rw [← heq] at hmem
          exact (List.nodup_cons.1 hnd).1 hmem

/-- C8: when method resolution succeeds, `executeMethodCall` pushes a new
frame in which `this` is bound to the receiver and, reading the frame's
local slots back, the i-th declared parameter holds the i-th supplied
argument (push order = declaration order) for i below the argument count,
and Null for every missing parameter (the slots are default-initialized and
never written): the single `getD` equation below covers both, since `getD`
past the end of the argument list yields `nullV`. -/
theorem c8_parameter_binding (vm : VirtualMachine) (methodName : String)
    (argCount : Nat) (oid : Nat) (obj : ObjectInstance)
    (classInst : ClassInstance) (m : MethodInstance)
    (hlen : argCount + 1 ≤ vm.operandStack.length)
    (hrecv : (vm.operandStack.drop argCount).headD RuntimeValue.nullV
      = RuntimeValue.objectV oid)
    (hobj : assocFind oid vm.memoryManager.allocatedObjects = some obj)
    (hcls : assocFind obj.classId vm.classStore = some classInst)
    (hm : lookupMethod classInst methodName = some m)
    (hndp : m.parameterNames.Nodup)
    (hthis : "this" ∉ m.parameterNames) :
    ∃ frame : StackFrame,
      executeMethodCall vm methodName argCount = CallResult.ok { vm with
        operandStack := (vm.operandStack.drop argCount).drop 1,
        callStack := vm.callStack ++ [frame] } ∧
      frame.getLocal "this" = RuntimeValue.objectV oid ∧
      (∀ i, i < m.parameterNames.length →
        frame.getLocal (m.parameterNames.getD i "")
          = (vm.operandStack.take argCount).reverse.getD i
              RuntimeValue.nullV) := by
  refine ⟨(m.parameterNames.zip ((vm.operandStack.take argCount).reverse)).foldl
    (fun f p => f.setLocal p.1 p.2)
    ((⟨m.implementation, [], 0⟩ : StackFrame).setLocal "this"
      (RuntimeValue.objectV oid)), ?_, ?_, ?_⟩
  · unfold executeMethodCall
    rw [if_neg (by omega)]
    simp only [hrecv, hobj, hcls, hm]
  · rw [getLocal_bind_notMem _ _ "this" ?hne]
    case hne =>
      intro q hq heq
      have hq1 := (List.of_mem_zip hq).1
      rw [heq] at hq1
      exact hthis hq1
    exact getLocal_setLocal_same _ _ _
  · intro i hi
    rw [getLocal_bind_zip m.parameterNames _ _ hndp i hi]
    by_cases hia : i < (vm.operandStack.take argCount).reverse.length
    · rw [if_pos hia]
    · rw [if_neg hia]
      have hne : ("this" : String) ≠ m.parameterNames.getD i "" := by
        intro heq
        have hip : i < m.parameterNames.length := hi
        have hmem : m.parameterNames.getD i "" ∈ m.parameterNames := by
          rw [List.getD_eq_getElem m.parameterNames "" hip]
          exact List.getElem_mem hip
        rw [← heq] at hmem
        exact hthis hmem
      rw [getLocal_setLocal_ne _ _ hne]
      rw [List.getD_eq_default ((vm.operandStack.take argCount).reverse)
        RuntimeValue.nullV (Nat.le_of_not_lt hia)]
      rfl

def c8Method : MethodInstance := ⟨"mv", "P.mv", 0, ["x", "y"], false⟩

def c8Class : ClassInstance :=
  { name := "P", superClass := none, methods := [("mv", c8Method)],
    fieldNames := [], vtable := [] }

/-- Operand stack: one argument (42) on top of the receiver; the method
declares two parameters, so `y` is missing. -/
def c8VM : VirtualMachine :=
  { operandStack := [RuntimeValue.intV 42, RuntimeValue.objectV 0],
    callStack := [],
    memoryManager := ⟨[(0, ⟨0, [], false⟩)], [], 1, 0, 0⟩,
    classes := [("P", 0)],
    classStore := [(0, c8Class)],
    exceptionHandlers := [],
    currentException := none }

theorem c8_parameter_binding_witness :
    (1 + 1 ≤ c8VM.operandStack.length ∧
      (c8VM.operandStack.drop 1).headD RuntimeValue.nullV
        = RuntimeValue.objectV 0 ∧
      assocFind 0 c8VM.memoryManager.allocatedObjects
        = some ⟨0, [], false⟩ ∧
      assocFind (0 : Nat) c8VM.classStore = some c8Class ∧
      lookupMethod c8Class "mv" = some c8Method ∧
      c8Method.parameterNames.Nodup ∧
      "this" ∉ c8Method.parameterNames) ∧
    (∃ frame : StackFrame,
      executeMethodCall c8VM "mv" 1 = CallResult.ok { c8VM with
        operandStack := (c8VM.operandStack.drop 1).drop 1,
        callStack := c8VM.callStack ++ [frame] } ∧
      frame.getLocal "this" = RuntimeValue.objectV 0 ∧
      (∀ i, i < c8Method.parameterNames.length →
        frame.getLocal (c8Method.parameterNames.getD i "")
          = (c8VM.operandStack.take 1).reverse.getD i
              RuntimeValue.nullV)) :=
  ⟨⟨by decide, by decide, by decide, by decide, by decide, by decide,
      by decide⟩,
    c8_parameter_binding c8VM "mv" 1 0 ⟨0, [], false⟩ c8Class c8Method
      (by decide) (by decide) (by decide) (by decide) (by decide) (by decide)
      (by decide)⟩

theorem c6_allocate_presence_witness :
    ((tableIds c6Heap.allocatedObjects).Nodup ∧
      1 ∉ tableIds c6Heap.allocatedObjects) ∧
    ((shouldCollectGarbage { c6Heap with
        allocatedObjects :=
          c6Heap.allocatedObjects ++ [(1, ⟨0, [], false⟩)],
        totalAllocated := c6Heap.totalAllocated + objectInstanceSize } = false →
      1 ∈ tableIds (allocateObject c6Heap 0 1).1.allocatedObjects) ∧
    (shouldCollectGarbage { c6Heap with
        allocatedObjects :=
          c6Heap.allocatedObjects ++ [(1, ⟨0, [], false⟩)],
        totalAllocated := c6Heap.totalAllocated + objectInstanceSize } = true →
      ¬ RootReachable { c6Heap with
          allocatedObjects :=
            c6Heap.allocatedObjects ++ [(1, ⟨0, [], false⟩)],
          totalAllocated := c6Heap.totalAllocated + objectInstanceSize } 1 →
      1 ∉ tableIds (allocateObject c6Heap 0 1).1.allocatedObjects)) :=
  ⟨⟨by decide, by decide⟩, c6_allocate_presence c6Heap 0 1 (by decide) (by decide)⟩

end BLang
